import Mathlib

/-
  Verification development for the gridflow download orchestration engine.

  The definitions below are a shallow embedding of the Python sources
  `src/gridflow/downloader.py` (the CMIP5-era module, suffix `D` here) and
  `src/gridflow/cmip6_downloader.py` (suffix `C6` here).  External effects
  are modelled explicitly:
    * the filesystem seen by one download task is an `FS` record holding the
      byte content (if any) at the final target path and at the
      `.tmp`-suffixed temporary path next to it;
    * the network is an oracle `net : Nat → NetResult` giving the outcome of
      the n-th `session.get` call, and `reqs` in `Cnt` counts those calls;
    * the threading stop event is an oracle `stop : Nat → Bool` giving the
      result of the n-th `stop_event.is_set()` check, counted by `clk`;
    * the hash functions from hashlib are parameters (`HashModel`);
    * `QueryHandler.fetch_specific_file` (itself a network operation) is an
      oracle `fetchSpec`, counted by `queries`.
  Python exceptions that escape a function are modelled with `Except`:
  an `Except.error` value is a raised exception, and call sites propagate or
  catch it exactly where the Python code does.
-/

namespace Gridflow

/-- Byte strings are modelled as lists of naturals. -/
abbrev Bytes := List Nat

/-- A search-result record (Solr document) as used by the downloader: the
facets accessed by the code.  A facet key that can be absent from the Python
dict is an `Option`; facet values are lists of strings in the wire format. -/
structure FileInfo where
  title : Option String
  id : String
  url : List String
  checksum : Option (List String)
  checksumType : Option (List String)
  activityId : Option (List String)
  variableId : Option (List String)
  sourceId : Option (List String)
  nominalResolution : Option (List String)
deriving DecidableEq, Repr

instance : Inhabited FileInfo :=
  ⟨⟨none, "", [], none, none, none, none, none, none⟩⟩

/-- Python `file_info.get(key, [default])[0]`: an absent key yields the
default, a present empty list raises `IndexError`. -/
def facetFirst (facet : Option (List String)) (dflt : String) : Except String String :=
  match facet with
  | none => .ok dflt
  | some [] => .error "IndexError: list index out of range"
  | some (x :: _) => .ok x

/-- Python `s.replace(' ', '')`: every space character is dropped. -/
def removeSpaces (s : String) : String := ⟨s.data.filter (fun c => c ≠ ' ')⟩

/-- Python `s.replace('/', '_')`: the patterns are single characters, so the
replacement is a character map. -/
def slashToUnderscore (s : String) : String :=
  ⟨s.data.map (fun c => if c = '/' then '_' else c)⟩

/-- Python `s.lower()` restricted to ASCII, which covers every string the
code lowercases (save modes and checksum algorithm tags). -/
def lowerAscii (s : String) : String :=
  ⟨s.data.map (fun c => if 'A' ≤ c ∧ c ≤ 'Z' then Char.ofNat (c.toNat + 32) else c)⟩

/-- The configuration of a `FileManager`: the download directory, the save
mode (stored lowercased by `__init__`), and the filename prefix used by the
cmip6 module in flat mode. -/
structure FileManager where
  downloadDir : String
  saveMode : String
  prefixStr : String
deriving DecidableEq, Repr

/-- `FileManager.get_output_path` from downloader.py (lines 85-97): flat mode
prefixes the filename with activity and resolution, structured mode nests
variable/resolution/activity.  No model-name lookup table exists in this
module: an absent nominal-resolution facet falls straight to `'unknown'`. -/
def getOutputPathD (fm : FileManager) (fi : FileInfo) : Except String String := do
  let filename := fi.title.getD ""
  let activity ← facetFirst fi.activityId "unknown"
  let resolution0 ← facetFirst fi.nominalResolution "unknown"
  let resolution := removeSpaces resolution0
  let variableId ← facetFirst fi.variableId "unknown"
  if fm.saveMode = "flat" then
    pure (fm.downloadDir ++ "/" ++ activity ++ "_" ++ resolution ++ "_" ++ filename)
  else
    pure (fm.downloadDir ++ "/" ++ variableId ++ "/" ++ resolution ++ "/" ++ activity
      ++ "/" ++ filename)

/-- `FileManager.RESOLUTION_MAPPING` from cmip6_downloader.py. -/
def RESOLUTION_MAPPING : List (String × String) :=
  [("HiRAM-SIT-HR", "25km"), ("CanESM5", "250km"), ("CESM2", "100km")]

/-- Python `RESOLUTION_MAPPING.get(model, 'unknown')`. -/
def resolutionLookup (model : String) : String :=
  match RESOLUTION_MAPPING.lookup model with
  | some r => r
  | none => "unknown"

/-- The resolution computation of `FileManager.get_output_path` in
cmip6_downloader.py (lines 82-91): the `source_id` and `nominal_resolution`
facets are read first (each can raise on a present empty list); a nonempty
nominal resolution is cleaned of spaces (the Python `.replace('km', 'km')`
is the identity), otherwise the static mapping is consulted. -/
def getResolutionC6 (fi : FileInfo) : Except String String := do
  let model ← facetFirst fi.sourceId "unknown"
  let nominal ← facetFirst fi.nominalResolution ""
  if nominal ≠ "" then
    pure (removeSpaces nominal)
  else
    pure (removeSpaces (resolutionLookup model))

/-- `FileManager.get_output_path` from cmip6_downloader.py (lines 78-99). -/
def getOutputPathC6 (fm : FileManager) (fi : FileInfo) : Except String String := do
  let filename := fi.title.getD ""
  let activity ← (facetFirst fi.activityId "unknown").map slashToUnderscore
  let variableId ← (facetFirst fi.variableId "unknown").map slashToUnderscore
  let resolution ← getResolutionC6 fi
  if fm.saveMode = "flat" then
    pure (fm.downloadDir ++ "/" ++ fm.prefixStr ++ activity ++ "_" ++ resolution ++ "_"
      ++ filename)
  else
    pure (fm.downloadDir ++ "/" ++ variableId ++ "/" ++ resolution ++ "/" ++ activity
      ++ "/" ++ filename)

/-- The Python `output_path.with_suffix(output_path.suffix + '.tmp')` of both
modules appends `.tmp` to the final target path. -/
def tempPathOf (outPath : String) : String := outPath ++ ".tmp"

/-- The hashlib functions, external to the repository: hex digests of md5 and
sha256 over file bytes. -/
structure HashModel where
  md5Hex : Bytes → String
  sha256Hex : Bytes → String

/-- `Downloader.verify_checksum` (downloader.py lines 181-203 with default
checksum type `'md5'`, cmip6_downloader.py lines 256-278 with default
`'sha256'`).  `fileData` is the content at `file_path` (`none`: no file, so
`open` raises).  The first facet read happens outside the `try` block, so a
present-but-empty checksum list raises out of the function; every exception
inside the `try` block returns `False`; an unsupported checksum type returns
`True`. -/
def verifyChecksum (h : HashModel) (dfltType : String) (fileData : Option Bytes)
    (fi : FileInfo) : Except String Bool := do
  let checksum ← facetFirst fi.checksum ""
  if checksum = "" then
    pure true
  else
    match facetFirst fi.checksumType dfltType with
    | .error _ => pure false
    | .ok ctype0 =>
      let ctype := lowerAscii ctype0
      match fileData with
      | none => pure false
      | some data =>
        if ctype = "md5" then pure (h.md5Hex data = checksum)
        else if ctype = "sha256" then pure (h.sha256Hex data = checksum)
        else pure true

/-- The filesystem as seen by one download task: the byte content (if any)
at the final target path and at its `.tmp` companion. -/
structure FS where
  finalC : Option Bytes
  tempC : Option Bytes
deriving DecidableEq, Repr

/-- Effect counters: `reqs` counts `session.get` calls of the downloader
session, `clk` counts `stop_event.is_set()` checks, `queries` counts
`QueryHandler.fetch_specific_file` calls. -/
structure Cnt where
  reqs : Nat
  clk : Nat
  queries : Nat
deriving DecidableEq, Repr

/-- Outcome of one `session.get` on a download URL: a raised
`requests.RequestException` (also covering `raise_for_status`), or a
successful streaming response with its chunk sequence. -/
inductive NetResult where
  | err
  | ok (chunks : List Bytes)

/-- The external world of one `Downloader`: network, stop event, hashes and
the metadata re-query operation, all as oracles. -/
structure Env where
  net : Nat → NetResult
  stop : Nat → Bool
  hash : HashModel
  fetchSpec : Nat → FileInfo → Option FileInfo

/-- `requests.Session.get` as used by downloader.py: one request, no stop
handling. -/
def sessionGetD (env : Env) (cnt : Cnt) : NetResult × Cnt :=
  (env.net cnt.reqs, { cnt with reqs := cnt.reqs + 1 })

/-- `InterruptibleSession.get` from cmip6_downloader.py (lines 49-56): the
request, then a stop-event check that converts a completed response into a
`RequestException`. -/
def sessionGetC6 (env : Env) (cnt : Cnt) : NetResult × Cnt :=
  let r := env.net cnt.reqs
  let cnt1 := { cnt with reqs := cnt.reqs + 1 }
  let stopped := env.stop cnt1.clk
  let cnt2 := { cnt1 with clk := cnt1.clk + 1 }
  (if stopped then .err else r, cnt2)

/-- The body of the downloader.py streaming loop: `open(temp,'wb')` has
already truncated the temp file; every nonempty chunk is appended. -/
def writtenBytes (chunks : List Bytes) : Bytes :=
  (chunks.filter (fun c => c ≠ [])).flatten

/-- The cmip6 streaming loop (lines 320-328): before each chunk the stop
event is checked; if set, the transfer is aborted leaving whatever was
already written at the temp path.  Returns `false` when aborted. -/
def streamC6 (env : Env) (chunks : List Bytes) (fs : FS) (cnt : Cnt) : Bool × FS × Cnt :=
  match chunks with
  | [] => (true, fs, cnt)
  | c :: rest =>
    let stopped := env.stop cnt.clk
    let cnt := { cnt with clk := cnt.clk + 1 }
    if stopped then (false, fs, cnt)
    else
      let fs := if c ≠ [] then { fs with tempC := some (fs.tempC.getD [] ++ c) } else fs
      streamC6 env rest fs cnt

/-- Python `url.split('|')[0]`: the characters before the first pipe. -/
def urlBase (u : String) : String := ⟨u.data.takeWhile (fun c => c ≠ '|')⟩

/-- Whether `pat` occurs at the head of `l`. -/
def startsWithSeq : List Char → List Char → Bool
  | [], _ => true
  | _ :: _, [] => false
  | p :: ps, c :: cs => p = c && startsWithSeq ps cs

/-- Whether `pat` occurs as a contiguous subsequence of `l`. -/
def containsSeq (pat : List Char) : List Char → Bool
  | [] => startsWithSeq pat []
  | c :: cs => startsWithSeq pat (c :: cs) || containsSeq pat cs

/-- Python `"HTTPServer" in url`. -/
def hasHTTPServer (u : String) : Bool :=
  containsSeq "HTTPServer".data u.data

/-- The URL selection of the cmip6 `download_file` loop (lines 307-313): only
entries tagged `HTTPServer` qualify, and since the exception handler always
returns or re-invokes the whole function, only the first qualifying entry is
ever requested. -/
def firstHTTPServerUrl (urls : List String) : Option String :=
  match urls with
  | [] => none
  | u :: rest => if hasHTTPServer u then some (urlBase u) else firstHTTPServerUrl rest

/-- The `(Optional[str], Optional[Dict])` result of `download_file`. -/
abbrev DlRes := Option String × Option FileInfo

/-- The existing-file gate shared by both `download_file` versions: if a file
is present at the target path and passes checksum verification, the function
returns success at once; a failing verification deletes the stale file and
the download proceeds.  `Sum.inl` is the early return, `Sum.inr` the
filesystem to continue with. -/
def existingGate (h : HashModel) (dfltType : String) (fi : FileInfo) (fs : FS)
    (outPath : String) (cnt : Cnt) : Except String (Sum (DlRes × FS × Cnt) FS) :=
  match fs.finalC with
  | some data =>
    match verifyChecksum h dfltType (some data) fi with
    | .error e => .error e
    | .ok true => .ok (.inl ((some outPath, none), fs, cnt))
    | .ok false => .ok (.inr { fs with finalC := none })
  | none => .ok (.inr fs)

/-- Signal produced by one pass of the downloader.py URL loop. -/
inductive UrlLoopRes where
  | done (r : DlRes)
  | retry
  | exhausted
deriving DecidableEq

/-- The `for url in urls` loop of downloader.py `download_file`
(lines 224-252).  A network error or checksum mismatch with
`attempt < retries` leads to re-invoking the whole function (the `retry`
signal); at the last attempt the loop advances to the next URL (`continue`);
a loop that runs out of URLs falls through to the failure return. -/
def tryUrlsD (env : Env) (retries : Nat) (fi : FileInfo) (attempt : Nat)
    (outPath : String) (urls : List String) (fs : FS) (cnt : Cnt) :
    Except String (UrlLoopRes × FS × Cnt) :=
  match urls with
  | [] => .ok (.exhausted, fs, cnt)
  | u :: rest =>
    let _downloadUrl := urlBase u
    let (r, cnt) := sessionGetD env cnt
    match r with
    | .err =>
      if attempt < retries then .ok (.retry, fs, cnt)
      else tryUrlsD env retries fi attempt outPath rest fs cnt
    | .ok chunks =>
      let fs := { fs with tempC := some (writtenBytes chunks) }
      match verifyChecksum env.hash "md5" fs.tempC fi with
      | .error e => .error e
      | .ok true =>
        .ok (.done (some outPath, none), { fs with finalC := fs.tempC, tempC := none }, cnt)
      | .ok false =>
        let fs := { fs with tempC := none }
        if attempt < retries then .ok (.retry, fs, cnt)
        else tryUrlsD env retries fi attempt outPath rest fs cnt

/-- `Downloader.download_file` from downloader.py (lines 205-255): validate
the descriptor, short-circuit on an already-verified existing file, then run
the URL loop; the `retry` signal re-invokes the function with `attempt + 1`.
The structural `fuel` argument is bookkeeping for the recursion depth: the
wrapper `dlFileD` supplies `retries - attempt`, which the code's own guard
`attempt < retries` keeps positive at every re-invocation, so the
fuel-exhausted branch is unreachable from the wrapper. -/
def dlFileDRec (env : Env) (fm : FileManager) (retries : Nat) (fi : FileInfo) :
    Nat → Nat → FS → Cnt → Except String (DlRes × FS × Cnt)
  | fuel, attempt, fs, cnt =>
    if fi.url = [] ∨ fi.title.getD "" = "" then .ok ((none, some fi), fs, cnt)
    else
      match getOutputPathD fm fi with
      | .error e => .error e
      | .ok outPath =>
        match existingGate env.hash "md5" fi fs outPath cnt with
        | .error e => .error e
        | .ok (.inl r) => .ok r
        | .ok (.inr fs) =>
          match tryUrlsD env retries fi attempt outPath fi.url fs cnt with
          | .error e => .error e
          | .ok (.done r, fs, cnt) => .ok (r, fs, cnt)
          | .ok (.exhausted, fs, cnt) => .ok ((none, some fi), fs, cnt)
          | .ok (.retry, fs, cnt) =>
            if attempt < retries then
              match fuel with
              | fuel' + 1 => dlFileDRec env fm retries fi fuel' (attempt + 1) fs cnt
              | 0 => .ok ((none, some fi), fs, cnt)
            else .ok ((none, some fi), fs, cnt)

/-- `Downloader.download_file` from downloader.py, entered as the code does
with its default argument `attempt=1` generalized. -/
def dlFileD (env : Env) (fm : FileManager) (retries : Nat) (fi : FileInfo)
    (attempt : Nat) (fs : FS) (cnt : Cnt) : Except String (DlRes × FS × Cnt) :=
  dlFileDRec env fm retries fi (retries - attempt) attempt fs cnt

/-- `Downloader.download_file` from cmip6_downloader.py (lines 280-357):
an entry stop-event check, descriptor validation, the existing-file gate,
then one attempt on the first `HTTPServer` URL.  The exception handler
(network error or checksum mismatch) checks the stop event, re-invokes the
whole function while `attempt <= retries`, and otherwise returns the
descriptor as failed. -/
def dlFileC6Rec (env : Env) (fm : FileManager) (retries : Nat) (fi : FileInfo) :
    Nat → Nat → FS → Cnt → Except String (DlRes × FS × Cnt)
  | fuel, attempt, fs, cnt =>
    let stopped := env.stop cnt.clk
    let cnt := { cnt with clk := cnt.clk + 1 }
    if stopped then .ok ((none, some fi), fs, cnt)
    else if fi.url = [] ∨ fi.title.getD "" = "" then .ok ((none, some fi), fs, cnt)
    else
      match getOutputPathC6 fm fi with
      | .error e => .error e
      | .ok outPath =>
        match existingGate env.hash "sha256" fi fs outPath cnt with
        | .error e => .error e
        | .ok (.inl r) => .ok r
        | .ok (.inr fs) =>
          match firstHTTPServerUrl fi.url with
          | none => .ok ((none, some fi), fs, cnt)
          | some _downloadUrl =>
            let (r, cnt) := sessionGetC6 env cnt
            match r with
            | .err =>
              let stopped := env.stop cnt.clk
              let cnt := { cnt with clk := cnt.clk + 1 }
              if stopped then .ok ((none, some fi), fs, cnt)
              else if attempt ≤ retries then
                match fuel with
                | fuel' + 1 => dlFileC6Rec env fm retries fi fuel' (attempt + 1) fs cnt
                | 0 => .ok ((none, some fi), fs, cnt)
              else .ok ((none, some fi), fs, cnt)
            | .ok chunks =>
              let fs := { fs with tempC := some [] }
              match streamC6 env chunks fs cnt with
              | (false, fs, cnt) => .ok ((none, some fi), fs, cnt)
              | (true, fs, cnt) =>
                match verifyChecksum env.hash "sha256" fs.tempC fi with
                | .error e => .error e
                | .ok true =>
                  .ok ((some outPath, none),
                    { fs with finalC := fs.tempC, tempC := none }, cnt)
                | .ok false =>
                  let fs := { fs with tempC := none }
                  let stopped := env.stop cnt.clk
                  let cnt := { cnt with clk := cnt.clk + 1 }
                  if stopped then .ok ((none, some fi), fs, cnt)
                  else if attempt ≤ retries then
                    match fuel with
                    | fuel' + 1 => dlFileC6Rec env fm retries fi fuel' (attempt + 1) fs cnt
                    | 0 => .ok ((none, some fi), fs, cnt)
                  else .ok ((none, some fi), fs, cnt)

/-- `Downloader.download_file` from cmip6_downloader.py: the recursion depth
bookkeeping `retries + 1 - attempt` stays positive at every re-invocation
because of the code's own guard `attempt <= retries`, so the fuel-exhausted
branch of `dlFileC6Rec` is unreachable from this wrapper. -/
def dlFileC6 (env : Env) (fm : FileManager) (retries : Nat) (fi : FileInfo)
    (attempt : Nat) (fs : FS) (cnt : Cnt) : Except String (DlRes × FS × Cnt) :=
  dlFileC6Rec env fm retries fi (retries + 1 - attempt) attempt fs cnt

/-- Python `min(len(files), self.max_downloads) if self.max_downloads else
len(files)`: `max_downloads` is `None` or an `int`, and both `None` and `0`
are falsy. -/
def effectiveTotal (maxDownloads : Option Nat) (n : Nat) : Nat :=
  match maxDownloads with
  | some m => if m = 0 then n else min n m
  | none => n

/-- The `as_completed` collection loop of downloader.py `download_all`
(lines 271-278), sequentialized in submission order: each task result
contributes its path to `downloaded_files` and its descriptor to
`failed_files`.  `future.result()` is not wrapped in `try` in this module,
so a raising task aborts the whole batch. -/
def collectD (outcome : FileInfo → Except String DlRes) :
    List FileInfo → List String × List FileInfo →
    Except String (List String × List FileInfo)
  | [], acc => .ok acc
  | f :: rest, (dl, fl) =>
    match outcome f with
    | .error e => .error e
    | .ok (pathOpt, failedOpt) =>
      collectD outcome rest (dl ++ pathOpt.toList, fl ++ failedOpt.toList)

/-- `Downloader.download_all` from downloader.py (lines 257-292):
`outcome f` stands for `future.result()` of the task
`executor.submit(self.download_file, f)`.  Only the first
`effectiveTotal` descriptors are submitted. -/
def downloadAllD (outcome : FileInfo → Except String DlRes)
    (maxDownloads : Option Nat) (files : List FileInfo) :
    Except String (List String × List FileInfo) :=
  let total := effectiveTotal maxDownloads files.length
  if total = 0 then .ok ([], [])
  else collectD outcome (files.take total) ([], [])

/-- The submission phase of cmip6 `download_all` (line 374): every submitted
task executes `download_file` regardless of what the collection loop later
does; tasks are sequentialized here, each on its own filesystem view
`fsOf i` (paths of distinct descriptors are distinct after upstream
deduplication), threading the shared counters.  A task that raises keeps its
pairing with the original descriptor for the collection loop's `except`
branch. -/
def runTasksC6 (env : Env) (fm : FileManager) (retries : Nat) (fsOf : Nat → FS) :
    List FileInfo → Nat → Cnt → List (Except String DlRes × FileInfo) × Cnt
  | [], _, cnt => ([], cnt)
  | f :: rest, i, cnt =>
    match dlFileC6 env fm retries f 1 (fsOf i) cnt with
    | .error e =>
      let (rs, cntF) := runTasksC6 env fm retries fsOf rest (i + 1) cnt
      ((.error e, f) :: rs, cntF)
    | .ok (r, _, cnt') =>
      let (rs, cntF) := runTasksC6 env fm retries fsOf rest (i + 1) cnt'
      ((.ok r, f) :: rs, cntF)

/-- The `as_completed` loop of cmip6 `download_all` (lines 375-396): before
consuming each completed future the stop event is checked and, if set, the
loop breaks, dropping all remaining results; a raising future contributes
the original descriptor to the failed list. -/
def collectC6 (env : Env) :
    List (Except String DlRes × FileInfo) → List String × List FileInfo → Cnt →
    (List String × List FileInfo) × Cnt
  | [], acc, cnt => (acc, cnt)
  | (r, forig) :: rest, (dl, fl), cnt =>
    let stopped := env.stop cnt.clk
    let cnt := { cnt with clk := cnt.clk + 1 }
    if stopped then ((dl, fl), cnt)
    else
      match r with
      | .error _ => collectC6 env rest (dl, fl ++ [forig]) cnt
      | .ok (pathOpt, failedOpt) =>
        collectC6 env rest (dl ++ pathOpt.toList, fl ++ failedOpt.toList) cnt

/-- `Downloader.download_all` from cmip6_downloader.py (lines 359-403). -/
def downloadAllC6 (env : Env) (fm : FileManager) (retries : Nat)
    (maxDownloads : Option Nat) (fsOf : Nat → FS) (files : List FileInfo)
    (cnt : Cnt) : (List String × List FileInfo) × Cnt :=
  let total := effectiveTotal maxDownloads files.length
  if total = 0 then (([], []), cnt)
  else
    let (results, cnt) := runTasksC6 env fm retries fsOf (files.take total) 0 cnt
    collectC6 env results ([], []) cnt

/-- `QueryHandler.fetch_specific_file` as an oracle call, counted by
`queries`. -/
def fetchSpecific (env : Env) (fi : FileInfo) (cnt : Cnt) : Option FileInfo × Cnt :=
  (env.fetchSpec cnt.queries fi, { cnt with queries := cnt.queries + 1 })

/-- The submission loop of one `retry_failed` round (cmip6 lines 428-446):
for each still-failed descriptor, after a stop check, its metadata is
re-queried; a failed re-query appends the descriptor to `current_failed` and
skips the download for this round; otherwise the download task runs
(sequentialized at submission). -/
def retrySubmit (env : Env) (fm : FileManager) (retries : Nat) (fsOf : Nat → FS) :
    List FileInfo → List FileInfo → List (Except String DlRes) → Cnt →
    List FileInfo × List (Except String DlRes) × Cnt
  | [], curF, futs, cnt => (curF, futs, cnt)
  | fi :: rest, curF, futs, cnt =>
    let stopped := env.stop cnt.clk
    let cnt := { cnt with clk := cnt.clk + 1 }
    if stopped then (curF, futs, cnt)
    else
      let (upd, cnt) := fetchSpecific env fi cnt
      match upd with
      | none => retrySubmit env fm retries fsOf rest (curF ++ [fi]) futs cnt
      | some updFi =>
        match dlFileC6 env fm retries updFi 1 (fsOf futs.length) cnt with
        | .error e => retrySubmit env fm retries fsOf rest curF (futs ++ [.error e]) cnt
        | .ok (r, _, cnt') => retrySubmit env fm retries fsOf rest curF (futs ++ [.ok r]) cnt'

/-- The collection loop of one `retry_failed` round (cmip6 lines 448-469):
the descriptor charged for the j-th future is
`remaining_failed[pending_futures.index(future)]`, i.e. `remaining[j]`
(which the source pairs up even when re-query skips shifted the
correspondence). -/
def retryCollect (env : Env) (remaining : List FileInfo) :
    List (Except String DlRes) → Nat → List String → List FileInfo → Cnt →
    List String × List FileInfo × Cnt
  | [], _, dl, curF, cnt => (dl, curF, cnt)
  | r :: rest, j, dl, curF, cnt =>
    let stopped := env.stop cnt.clk
    let cnt := { cnt with clk := cnt.clk + 1 }
    if stopped then (dl, curF, cnt)
    else
      let forig := remaining.getD j default
      match r with
      | .error _ => retryCollect env remaining rest (j + 1) dl (curF ++ [forig]) cnt
      | .ok (pathOpt, failedOpt) =>
        retryCollect env remaining rest (j + 1) (dl ++ pathOpt.toList)
          (curF ++ failedOpt.toList) cnt

/-- `Downloader.retry_failed` from cmip6_downloader.py (lines 405-476):
bounded rounds while failures remain and `retry_round < retries`; each round
re-queries every remaining descriptor and re-downloads those still found;
`current_failed` of one round becomes `remaining_failed` of the next. -/
def retryRoundsRec (env : Env) (fm : FileManager) (retries : Nat) (fsOf : Nat → FS) :
    Nat → Nat → List FileInfo → List String → Cnt →
    (List String × List FileInfo) × Cnt
  | fuel, r, remaining, dl, cnt =>
    if remaining = [] ∨ retries ≤ r then ((dl, remaining), cnt)
    else
      let stopped := env.stop cnt.clk
      let cnt := { cnt with clk := cnt.clk + 1 }
      if stopped then ((dl, remaining), cnt)
      else
        let (curF1, futs, cnt) := retrySubmit env fm retries fsOf remaining [] [] cnt
        let (dl2, curF2, cnt) := retryCollect env remaining futs 0 [] curF1 cnt
        match fuel with
        | fuel' + 1 => retryRoundsRec env fm retries fsOf fuel' (r + 1) curF2 (dl ++ dl2) cnt
        | 0 => ((dl ++ dl2, curF2), cnt)

/-- `Downloader.retry_failed` entered at `retry_round = 0`: the fuel
`retries - r` stays positive whenever the loop condition `r < retries`
holds, so the fuel-exhausted branch of `retryRoundsRec` is unreachable. -/
def retryFailed (env : Env) (fm : FileManager) (retries : Nat) (fsOf : Nat → FS)
    (failedFiles : List FileInfo) (cnt : Cnt) : (List String × List FileInfo) × Cnt :=
  retryRoundsRec env fm retries fsOf retries 0 failedFiles [] cnt

/-- One page of a search response: the `docs` list and the reported
`numFound` total. -/
structure PageResp where
  docs : List FileInfo
  numFound : Nat

/-- `QueryHandler._fetch_from_node` from downloader.py (lines 149-166): the
`while True` pagination loop, with `pages i` the response to the i-th
request, run on `fuel`; `none` means the loop has not terminated within
`fuel` iterations (so `none` for every fuel is non-termination).  The loop
breaks when `offset + len(docs) >= num_found`, else sets
`offset += len(docs)` and repeats. -/
def fetchFromNode (pages : Nat → PageResp) :
    Nat → Nat → List FileInfo → Nat → Option (List FileInfo)
  | 0, _, _, _ => none
  | fuel + 1, offset, acc, pageIdx =>
    let p := pages pageIdx
    let files := acc ++ p.docs
    if p.numFound ≤ offset + p.docs.length then some files
    else fetchFromNode pages fuel (offset + p.docs.length) files (pageIdx + 1)

/-- The termination property of the pagination loop. -/
def fetchTerminates (pages : Nat → PageResp) : Prop :=
  ∃ fuel, (fetchFromNode pages fuel 0 [] 0).isSome

/-- The per-node deduplication of `QueryHandler.fetch_datasets` (downloader.py
lines 131-137, identically cmip6 lines 137-142): keep a record when its `id`
facet is nonempty and not seen before; records with a missing or empty `id`
are dropped. -/
def dedupById : List FileInfo → List String → List FileInfo
  | [], _ => []
  | f :: rest, seen =>
    if f.id ≠ "" ∧ f.id ∉ seen then f :: dedupById rest (f.id :: seen)
    else dedupById rest seen

/-- One Python dict assignment `d[k] = v` on an insertion-ordered dict
modelled as an association list: an existing key keeps its position but has
its value replaced; a new key is appended. -/
def upsertTitle (m : List (String × FileInfo)) (k : String) (v : FileInfo) :
    List (String × FileInfo) :=
  match m with
  | [] => [(k, v)]
  | (k', v') :: rest => if k' = k then (k, v) :: rest else (k', v') :: upsertTitle rest k v

/-- The dict comprehension `{f['title']: f for f in files if 'title' in f}`:
the dict starts empty and one assignment runs per record, in order, skipping
records without a title key. -/
def titleFold : List (String × FileInfo) → List FileInfo → List (String × FileInfo)
  | m, [] => m
  | m, f :: rest =>
    titleFold
      (match f.title with
       | some t => upsertTitle m t f
       | none => m)
      rest

/-- The by-title deduplication of `run_download`
(`files_by_title = {f['title']: f for f in files if 'title' in f}` followed
by `list(files_by_title.values())`, downloader.py lines 412-413, cmip6 lines
582-586): records without a title key are dropped, and a later record with
the same title overwrites an earlier one. -/
def dedupByTitle (files : List FileInfo) : List FileInfo :=
  (titleFold [] files).map Prod.snd

/-- The records of an association list at key `k`. -/
def entryOf (m : List (String × FileInfo)) (k : String) : List FileInfo :=
  (m.filter (fun p => p.1 == k)).map Prod.snd

/-- `future.result()` of one downloader.py download task entered at
`attempt=1` on filesystem view `fs`: the `(path, failed_info)` pair, with a
raised exception propagating. -/
def runDlD (env : Env) (fm : FileManager) (retries : Nat) (fs : FS) (cnt : Cnt)
    (f : FileInfo) : Except String DlRes :=
  match dlFileD env fm retries f 1 fs cnt with
  | .ok (r, _, _) => .ok r
  | .error e => .error e

/-- The number of network requests recorded by a `download_file` run (zero
for a propagated exception, whose counter state the model does not keep). -/
def reqsOf : Except String (DlRes × FS × Cnt) → Nat
  | .ok (_, _, c) => c.reqs
  | .error _ => 0

/-- Whether a task outcome is the failure shape `(None, file_info)`. -/
def isFailOut : Except String DlRes → Bool
  | .ok (none, some _) => true
  | _ => false

/-- The path produced by a task outcome, if any. -/
def pathOut : Except String DlRes → Option String
  | .ok (some p, _) => some p
  | _ => none

/-- The path that one consumed future of the cmip6 `as_completed` loop
contributes to `downloaded_files`. -/
def pathOutPair : Except String DlRes × FileInfo → Option String
  | (.ok (some p, _), _) => some p
  | _ => none

/-- The descriptor that one consumed future of the cmip6 `as_completed`
loop contributes to `failed_files`: the annotated descriptor of a failure
result, or — for a raising future, via the `except` branch — the original
descriptor paired with it. -/
def failOutPair : Except String DlRes × FileInfo → Option FileInfo
  | (.ok (_, some g), _) => some g
  | (.error _, forig) => some forig
  | _ => none

/-- A completed future contributes to exactly one of the two lists. -/
def pairShape (r : Except String DlRes × FileInfo) : Prop :=
  (∃ p, pathOutPair r = some p ∧ failOutPair r = none) ∨
  (pathOutPair r = none ∧ ∃ g, failOutPair r = some g)

/-- The fallback chain for the resolution component as the specification
describes it, written for comparison with `getResolutionC6`: the cleaned
nominal-resolution facet when present and nonempty, else the static
model-name lookup, else the literal unknown token. -/
def resolutionChainSpec (fi : FileInfo) : String :=
  let model :=
    match fi.sourceId with
    | some (m :: _) => m
    | _ => "unknown"
  match fi.nominalResolution with
  | some (r :: _) =>
    if r ≠ "" then removeSpaces r else removeSpaces (resolutionLookup model)
  | _ => removeSpaces (resolutionLookup model)

/-! Concrete fixtures used by witnesses and counterexamples. -/

/-- A hash oracle with a constant digest: sufficient wherever the checksum
facet is absent (never consulted) or deliberately mismatched. -/
def hashZ : HashModel := ⟨fun _ => "", fun _ => ""⟩

/-- Every request succeeds with one two-byte chunk; the stop event never
fires. -/
def envAllOk : Env := ⟨fun _ => .ok [[1, 2]], fun _ => false, hashZ, fun _ _ => none⟩

/-- Every request raises; the stop event never fires; re-queries find
nothing. -/
def envAllErr : Env := ⟨fun _ => .err, fun _ => false, hashZ, fun _ _ => none⟩

/-- The stop event is set from the start. -/
def envStopped : Env := ⟨fun _ => .err, fun _ => true, hashZ, fun _ _ => none⟩

def fmFlat : FileManager := ⟨"d", "flat", ""⟩

/-- A valid descriptor: one HTTPServer URL, no checksum facet. -/
def fiA : FileInfo :=
  ⟨some "a.nc", "id-a", ["u|HTTPServer"], none, none, some ["A"], some ["v"],
    some ["CESM2"], some ["100 km"]⟩

def fiB : FileInfo := { fiA with title := some "b.nc", id := "id-b" }

/-- Same title as `fiA` but a different identity. -/
def fiA2 : FileInfo := { fiA with id := "id-a2" }

/-- A descriptor with no `id` facet. -/
def fiNoId : FileInfo := { fiA with id := "" }

/-- A descriptor carrying a checksum that no download can match under the
constant-digest hash oracle. -/
def fiBadCk : FileInfo := { fiA with checksum := some ["deadbeef"] }

/-- A descriptor whose `nominal_resolution` facet is a present empty list. -/
def fiEmptyRes : FileInfo := { fiA with nominalResolution := some [] }

/-- A CESM2 descriptor with no `nominal_resolution` facet. -/
def fiNoRes : FileInfo := { fiA with nominalResolution := none }

def fs0 : FS := ⟨none, none⟩

/-- A filesystem view with a file already present at the target path. -/
def fsExisting : FS := ⟨some [9], none⟩

def cnt0 : Cnt := ⟨0, 0, 0⟩

/-- An endpoint that always answers an empty page while reporting one match:
the pagination loop never advances its offset on it. -/
def badPages : Nat → PageResp := fun _ => ⟨[], 1⟩

/-- An endpoint that answers a single one-record page. -/
def onePages : Nat → PageResp := fun _ => ⟨[fiA], 1⟩

/-- Task outcomes in a world where every request succeeds. -/
def outcomeOk (f : FileInfo) : Except String DlRes := runDlD envAllOk fmFlat 5 fs0 cnt0 f

/-- Task outcomes in a world where every request raises. -/
def outcomeErr (f : FileInfo) : Except String DlRes := runDlD envAllErr fmFlat 1 fs0 cnt0 f

/-! ## Theorems -/

/-- Reduction of a bind on a successful `Except` value. -/
theorem ok_bind {α β : Type} (a : α) (f : α → Except String β) :
    (Except.ok a >>= f : Except String β) = f a := rfl

/-- Reduction of a bind on a raised `Except` value. -/
theorem error_bind {α β : Type} (e : String) (f : α → Except String β) :
    (Except.error e >>= f : Except String β) = Except.error e := rfl

/-- `pure` on `Except` is `Except.ok`. -/
theorem pure_ok {α : Type} (a : α) : (pure a : Except String α) = Except.ok a := rfl

/-- C3: the claim says a descriptor whose every attempt fails is tried
exactly `retries` times.  Evaluating both `download_file` implementations on
a descriptor with a single always-failing HTTPServer URL and `retries = 1`:
cmip6_downloader.py (guard `attempt <= self.retries`) performs 2 network
requests — one more than its own log line "Failed to download ... after 1
attempts" reports — while downloader.py (guard `attempt < self.retries`)
performs exactly 1, and both then return the descriptor as failed. -/
theorem dlFile_attempt_count_at_retries_one :
    reqsOf (dlFileC6 envAllErr fmFlat 1 fiA 1 fs0 cnt0) = 2 ∧
    reqsOf (dlFileD envAllErr fmFlat 1 fiA 1 fs0 cnt0) = 1 ∧
    dlFileC6 envAllErr fmFlat 1 fiA 1 fs0 cnt0 = .ok ((none, some fiA), fs0, ⟨2, 6, 0⟩) ∧
    dlFileD envAllErr fmFlat 1 fiA 1 fs0 cnt0 = .ok ((none, some fiA), fs0, ⟨1, 0, 0⟩) :=
  ⟨rfl, rfl, rfl, rfl⟩

/-- C8, counterexample: the resolution fallback chain of
`FileManager.get_output_path` can raise.  A descriptor carrying a present but
empty `nominal_resolution` list makes the cmip6 chain (and the whole path
computation) raise `IndexError`; moreover the downloader.py variant consults
no lookup table at all: a CESM2 record without the facet resolves to
`unknown`, not to the table's `100km`. -/
theorem getResolution_raises_on_empty_facet :
    getResolutionC6 fiEmptyRes = .error "IndexError: list index out of range" ∧
    getOutputPathC6 fmFlat fiEmptyRes = .error "IndexError: list index out of range" ∧
    getOutputPathD fmFlat fiNoRes = .ok "d/A_unknown_a.nc" ∧
    resolutionLookup "CESM2" = "100km" :=
  ⟨rfl, rfl, rfl, rfl⟩

/-- C8, amended: for a descriptor whose `source_id` and `nominal_resolution`
facets are not present-but-empty lists, the cmip6 resolution computation is
total and deterministic and equals the fallback chain the specification
describes: the cleaned nominal-resolution facet when present and nonempty,
else the static model lookup, else the literal unknown token. -/
theorem getResolutionC6_eq_chain (fi : FileInfo)
    (hsrc : fi.sourceId ≠ some []) (hres : fi.nominalResolution ≠ some []) :
    getResolutionC6 fi = .ok (resolutionChainSpec fi) := by
  unfold getResolutionC6 resolutionChainSpec facetFirst
  rcases hs : fi.sourceId with _ | ⟨_ | ⟨m, ms⟩⟩ <;>
    rcases hr : fi.nominalResolution with _ | ⟨_ | ⟨r, rs⟩⟩ <;>
      simp_all [ok_bind, pure_ok] <;>
      split <;> simp_all [pure_ok]

/-- Witness for the amended C8 theorem at a concrete descriptor. -/
theorem getResolutionC6_eq_chain_witness :
    fiA.sourceId ≠ some [] ∧ fiA.nominalResolution ≠ some [] ∧
    getResolutionC6 fiA = .ok (resolutionChainSpec fiA) :=
  ⟨by decide, by decide, getResolutionC6_eq_chain fiA (by decide) (by decide)⟩

/-- C7, counterexample: the pagination loop of `_fetch_from_node` need not
terminate.  Against an endpoint whose every response has an empty `docs`
list but `numFound = 1`, the loop never reaches the break condition and
never advances its offset, so no amount of fuel completes it. -/
theorem fetchFromNode_nontermination : ¬ fetchTerminates badPages := by
  rintro ⟨fuel, h⟩
  suffices H : ∀ fuel acc idx, fetchFromNode badPages fuel 0 acc idx = none by
    rw [H] at h
    simp at h
  intro n
  induction n with
  | zero => intro acc idx; rfl
  | succ n ih =>
    intro acc idx
    simpa [fetchFromNode, badPages] using ih acc (idx + 1)

/-- C7, amended: provided every page carries at least one record and the
endpoint reports a constant total-match count `N`, the loop terminates
(within `N + 1` requests) and stops once the cumulative number of fetched
records has reached `N`. -/
theorem fetchFromNode_terminates (pages : Nat → PageResp) (N : Nat)
    (hne : ∀ i, (pages i).docs ≠ []) (hN : ∀ i, (pages i).numFound = N) :
    ∃ res, fetchFromNode pages (N + 1) 0 [] 0 = some res ∧ N ≤ res.length := by
  have aux : ∀ fuel offset (acc : List FileInfo) idx, acc.length = offset →
      N + 1 ≤ offset + fuel → offset < N ∨ fuel = N + 1 →
      ∃ res, fetchFromNode pages fuel offset acc idx = some res ∧ N ≤ res.length := by
    intro fuel
    induction fuel with
    | zero =>
      intro offset acc idx _ h2 h3
      rcases h3 with h3 | h3 <;> omega
    | succ n ih =>
      intro offset acc idx hlen h2 _
      have hdocs := hne idx
      have hnum := hN idx
      by_cases hstop : (pages idx).numFound ≤ offset + (pages idx).docs.length
      · refine ⟨acc ++ (pages idx).docs, ?_, ?_⟩
        · simp [fetchFromNode, hstop]
        · simp [List.length_append, hlen]
          omega
      · have hlen1 : 1 ≤ (pages idx).docs.length :=
          List.length_pos.mpr hdocs
        have hrec := ih (offset + (pages idx).docs.length) (acc ++ (pages idx).docs)
          (idx + 1) (by simp [List.length_append, hlen])
          (by omega) (by left; omega)
        rcases hrec with ⟨res, hres, hlenres⟩
        refine ⟨res, ?_, hlenres⟩
        simp [fetchFromNode, hstop]
        exact hres
  exact aux (N + 1) 0 [] 0 rfl (by omega) (by right; rfl)

/-- Witness for the amended C7 theorem against a concrete one-page
endpoint. -/
theorem fetchFromNode_terminates_witness :
    (∀ i, (onePages i).docs ≠ []) ∧ (∀ i, (onePages i).numFound = 1) ∧
    ∃ res, fetchFromNode onePages 2 0 [] 0 = some res ∧ 1 ≤ res.length :=
  ⟨fun _ => by simp [onePages], fun _ => rfl,
    fetchFromNode_terminates onePages 1 (fun _ => by simp [onePages]) (fun _ => rfl)⟩

/-- With the stop event set at the entry check, `download_file` (cmip6)
returns the cancellation outcome at once: no request, no filesystem
change, one consumed stop check. -/
theorem dlFileC6_stopped (env : Env) (fm : FileManager) (retries : Nat) (fi : FileInfo)
    (attempt : Nat) (fs : FS) (cnt : Cnt) (hstop : env.stop cnt.clk = true) :
    dlFileC6 env fm retries fi attempt fs cnt =
      .ok ((none, some fi), fs, { cnt with clk := cnt.clk + 1 }) := by
  rw [dlFileC6, dlFileC6Rec]
  simp [hstop]

/-- C5, counterexample: with `retries = 2` a descriptor whose metadata
re-query always fails is re-queried once per round, 2 times in all, whereas
the claim (permanently dropped after its first failed re-query) would allow
at most 1 query. -/
theorem retryFailed_requery_cex :
    (retryFailed envAllErr fmFlat 2 (fun _ => fs0) [fiA] cnt0).2.queries = 2 ∧
    ¬ (2 ≤ 1) :=
  ⟨rfl, by omega⟩

/-- C5, amended: a descriptor whose re-query finds nothing is skipped for
download in that round but carried into the next round's remaining list,
where it is re-queried again; it reaches the final failure list only when
the round budget `retries` is exhausted.  With a re-query oracle that never
finds the item and no cancellation, `retry_failed` performs exactly one
re-query per round for `retries` rounds, never downloads, and returns the
descriptor in the final failure list. -/
theorem retryFailed_requery_every_round (env : Env) (fm : FileManager)
    (retries : Nat) (fsOf : Nat → FS) (fi : FileInfo) (cnt : Cnt)
    (hstop : ∀ n, env.stop n = false)
    (hfetch : ∀ n g, env.fetchSpec n g = none) :
    retryFailed env fm retries fsOf [fi] cnt =
      (([], [fi]),
        { cnt with queries := cnt.queries + retries, clk := cnt.clk + 2 * retries }) := by
  have aux : ∀ L r dl cnt1, retries = r + L →
      retryRoundsRec env fm retries fsOf L r [fi] dl cnt1 =
        ((dl, [fi]),
          { cnt1 with queries := cnt1.queries + L, clk := cnt1.clk + 2 * L }) := by
    intro L
    induction L with
    | zero =>
      intro r dl cnt1 hr
      simp [retryRoundsRec, hr]
    | succ n ih =>
      intro r dl cnt1 hr
      have hlt : ¬ (retries ≤ r) := by omega
      rw [retryRoundsRec]
      simp only [hlt, hstop, hfetch, retrySubmit, retryCollect, fetchSpecific]
      simp
      rw [ih (r + 1) dl _ (by omega)]
      simp
      omega
  have h0 := aux retries 0 [] cnt (by omega)
  simpa [retryFailed] using h0

/-- Witness for the amended C5 theorem at a concrete environment. -/
theorem retryFailed_requery_every_round_witness :
    (∀ n, envAllErr.stop n = false) ∧ (∀ n g, envAllErr.fetchSpec n g = none) ∧
    retryFailed envAllErr fmFlat 2 (fun _ => fs0) [fiA] cnt0 =
      (([], [fiA]), { cnt0 with queries := cnt0.queries + 2, clk := cnt0.clk + 2 * 2 }) :=
  ⟨fun _ => rfl, fun _ _ => rfl,
    retryFailed_requery_every_round envAllErr fmFlat 2 (fun _ => fs0) fiA cnt0
      (fun _ => rfl) (fun _ _ => rfl)⟩

/-- C6: a descriptor whose target path already holds a file passing checksum
verification short-circuits both `download_file` implementations: success
with the resolved path, no network request, the filesystem untouched (the
cmip6 version consumes exactly its entry stop-event check). -/
theorem download_file_existing_verified (env : Env) (fm : FileManager)
    (retries attempt : Nat) (fi : FileInfo) (fs : FS) (cnt : Cnt) (data : Bytes)
    (pD pC : String)
    (hurl : fi.url ≠ []) (htitle : fi.title.getD "" ≠ "")
    (hfs : fs.finalC = some data)
    (hvD : verifyChecksum env.hash "md5" (some data) fi = .ok true)
    (hpD : getOutputPathD fm fi = .ok pD)
    (hvC : verifyChecksum env.hash "sha256" (some data) fi = .ok true)
    (hpC : getOutputPathC6 fm fi = .ok pC)
    (hstop : env.stop cnt.clk = false) :
    dlFileD env fm retries fi attempt fs cnt = .ok ((some pD, none), fs, cnt) ∧
    dlFileC6 env fm retries fi attempt fs cnt =
      .ok ((some pC, none), fs, { cnt with clk := cnt.clk + 1 }) := by
  constructor
  · rw [dlFileD, dlFileDRec]
    simp [hurl, htitle, hpD, existingGate, hfs, hvD]
  · rw [dlFileC6, dlFileC6Rec]
    simp [hurl, htitle, hpC, existingGate, hfs, hvC, hstop]

/-- Witness for the C6 theorem: a pre-existing file and a descriptor with no
checksum facet (verification trivially passes). -/
theorem download_file_existing_verified_witness :
    fsExisting.finalC = some [9] ∧
    dlFileD envAllErr fmFlat 3 fiA 1 fsExisting cnt0 =
      .ok ((some "d/A_100km_a.nc", none), fsExisting, cnt0) ∧
    dlFileC6 envAllErr fmFlat 3 fiA 1 fsExisting cnt0 =
      .ok ((some "d/A_100km_a.nc", none), fsExisting, { cnt0 with clk := 1 }) := by
  have h := download_file_existing_verified envAllErr fmFlat 3 1 fiA fsExisting cnt0 [9]
    "d/A_100km_a.nc" "d/A_100km_a.nc" (by decide) (by decide) rfl rfl rfl rfl rfl rfl
  exact ⟨rfl, h.1, h.2⟩

/-- Under a pre-set stop event every submitted cmip6 task returns the
cancellation outcome immediately, consuming one stop check and no network
request. -/
theorem runTasksC6_stopped (env : Env) (fm : FileManager) (retries : Nat)
    (fsOf : Nat → FS) (hstop : ∀ n, env.stop n = true) :
    ∀ (L : List FileInfo) (i : Nat) (cnt : Cnt),
      runTasksC6 env fm retries fsOf L i cnt =
        (L.map (fun f => (Except.ok ((none, some f) : DlRes), f)),
          { cnt with clk := cnt.clk + L.length }) := by
  intro L
  induction L with
  | nil => intro i cnt; simp [runTasksC6]
  | cons f rest ih =>
    intro i cnt
    simp only [runTasksC6]
    rw [dlFileC6_stopped env fm retries f 1 (fsOf i) cnt (hstop _)]
    simp only [ih (i + 1) _]
    simp
    omega

/-- `effectiveTotal` of an empty batch is zero. -/
theorem effectiveTotal_len_zero (maxD : Option Nat) : effectiveTotal maxD 0 = 0 := by
  rcases maxD with _ | m <;> simp [effectiveTotal]

/-- C9: with the cancellation signal already set, `download_file` returns
immediately with the failed-for-cancellation outcome `(None, descriptor)`
and performs no request, and `download_all` returns `([], [])` with the
request counter unchanged. -/
theorem download_all_stopped (env : Env) (fm : FileManager) (retries : Nat)
    (maxD : Option Nat) (fsOf : Nat → FS) (files : List FileInfo)
    (fi : FileInfo) (attempt : Nat) (fs : FS) (cnt : Cnt)
    (hstop : ∀ n, env.stop n = true) :
    dlFileC6 env fm retries fi attempt fs cnt =
      .ok ((none, some fi), fs, { cnt with clk := cnt.clk + 1 }) ∧
    (downloadAllC6 env fm retries maxD fsOf files cnt).1 = ([], []) ∧
    (downloadAllC6 env fm retries maxD fsOf files cnt).2.reqs = cnt.reqs := by
  refine ⟨dlFileC6_stopped env fm retries fi attempt fs cnt (hstop _), ?_⟩
  have key : ∀ c : Cnt, (downloadAllC6 env fm retries maxD fsOf files c).1 = ([], []) ∧
      (downloadAllC6 env fm retries maxD fsOf files c).2.reqs = c.reqs := by
    intro c
    rw [downloadAllC6]
    by_cases h0 : effectiveTotal maxD files.length = 0
    · simp [h0]
    · rcases files with _ | ⟨f, rest⟩
      · exact absurd (effectiveTotal_len_zero maxD) h0
      · obtain ⟨t, ht⟩ : ∃ t, effectiveTotal maxD (f :: rest).length = t + 1 :=
          ⟨effectiveTotal maxD (f :: rest).length - 1, by omega⟩
        simp only [h0, if_false, ht, List.take_succ_cons]
        rw [runTasksC6_stopped env fm retries fsOf hstop]
        simp only [List.map_cons, collectC6]
        simp [hstop]
  exact key cnt

/-- Witness for the C9 theorem at a concrete stopped environment. -/
theorem download_all_stopped_witness :
    (∀ n, envStopped.stop n = true) ∧
    dlFileC6 envStopped fmFlat 3 fiA 1 fs0 cnt0 =
      .ok ((none, some fiA), fs0, { cnt0 with clk := 1 }) ∧
    (downloadAllC6 envStopped fmFlat 3 none (fun _ => fs0) [fiA, fiB] cnt0).1 = ([], []) ∧
    (downloadAllC6 envStopped fmFlat 3 none (fun _ => fs0) [fiA, fiB] cnt0).2.reqs =
      cnt0.reqs :=
  ⟨fun _ => rfl,
    download_all_stopped envStopped fmFlat 3 none (fun _ => fs0) [fiA, fiB] fiA 1 fs0 cnt0
      (fun _ => rfl)⟩

/-- The streaming loop writes only to the temp file: it never changes the
content at the final path. -/
theorem streamC6_finalC (env : Env) :
    ∀ chunks fs cnt, ((streamC6 env chunks fs cnt).2.1).finalC = fs.finalC := by
  intro chunks
  induction chunks with
  | nil => intro fs cnt; rfl
  | cons c rest ih =>
    intro fs cnt
    rw [streamC6]
    by_cases h : env.stop cnt.clk = true
    · simp [h]
    · simp [h]
      split <;> simp [ih]

/-- When the existing-file gate lets the download proceed, the final path
is free: either nothing was there, or the stale file failed verification
and was deleted. -/
theorem existingGate_inr (h : HashModel) (t : String) (fi : FileInfo) (fs : FS)
    (p : String) (cnt : Cnt) (fs' : FS)
    (hg : existingGate h t fi fs p cnt = .ok (.inr fs')) : fs'.finalC = none := by
  unfold existingGate at hg
  split at hg
  · split at hg
    · simp_all
    · simp_all
    · simp at hg; rw [← hg]
  · rename_i heq
    simp at hg
    rw [← hg]
    exact heq

/-- The early return of the existing-file gate is a success carrying the
resolved output path. -/
theorem existingGate_inl (h : HashModel) (t : String) (fi : FileInfo) (fs : FS)
    (p : String) (cnt : Cnt) (r : DlRes × FS × Cnt)
    (hg : existingGate h t fi fs p cnt = .ok (.inl r)) : r.1.1 = some p := by
  unfold existingGate at hg
  split at hg
  · split at hg
    · simp_all
    · simp at hg; rw [← hg]
    · simp_all
  · simp_all

/-- Invariants of the downloader.py URL loop: the retry and exhausted
signals leave the final path exactly as it was, and a done signal always
carries a produced path. -/
theorem tryUrlsD_inv (env : Env) (retries : Nat) (fi : FileInfo) (attempt : Nat)
    (outPath : String) :
    ∀ urls fs cnt sig fs' cnt',
      tryUrlsD env retries fi attempt outPath urls fs cnt = .ok (sig, fs', cnt') →
      ((sig = .retry ∨ sig = .exhausted) → fs'.finalC = fs.finalC) ∧
      (∀ r, sig = .done r → r.1 = some outPath) := by
  intro urls
  induction urls with
  | nil =>
    intro fs cnt sig fs' cnt' hrun
    rw [tryUrlsD] at hrun
    simp at hrun
    obtain ⟨h1, h2, h3⟩ := hrun
    subst h1; subst h2
    exact ⟨fun _ => rfl, fun r hr => by simp at hr⟩
  | cons u rest ih =>
    intro fs cnt sig fs' cnt' hrun
    rw [tryUrlsD] at hrun
    simp only [sessionGetD] at hrun
    split at hrun
    · -- network error branch
      split at hrun
      · simp at hrun
        obtain ⟨h1, h2, h3⟩ := hrun
        subst h1; subst h2
        exact ⟨fun _ => rfl, fun r hr => by simp at hr⟩
      · exact ih _ _ sig fs' cnt' hrun
    · -- streamed response branch: checksum verification cases
      split at hrun
      · exact absurd hrun (by simp)
      · simp at hrun
        obtain ⟨h1, h2, h3⟩ := hrun
        subst h1; subst h2
        refine ⟨fun h => by rcases h with h | h <;> simp at h, fun r hr => by cases hr; rfl⟩
      · split at hrun
        · simp at hrun
          obtain ⟨h1, h2, h3⟩ := hrun
          subst h1; subst h2
          exact ⟨fun _ => rfl, fun r hr => by simp at hr⟩
        · have hres := ih _ _ sig fs' cnt' hrun
          exact ⟨fun h => hres.1 h, hres.2⟩

/-- Failure atomicity of downloader.py download_file: a run that produces
no path either left the filesystem untouched (an early return) or ends with
no file at the final target path. -/
theorem dlFileDRec_failure_finalC (env : Env) (fm : FileManager) (retries : Nat)
    (fi : FileInfo) :
    ∀ fuel attempt fs cnt res fs' cnt',
      dlFileDRec env fm retries fi fuel attempt fs cnt = .ok (res, fs', cnt') →
      res.1 = none → fs'.finalC = none ∨ fs' = fs := by
  have leafInvalid : ∀ (a : DlRes) (fs fs' : FS) (cnt cnt' : Cnt) (res : DlRes),
      (Except.ok (a, fs, cnt) : Except String (DlRes × FS × Cnt)) = .ok (res, fs', cnt') →
      fs'.finalC = none ∨ fs' = fs := by
    intro a fs fs' cnt cnt' res h
    simp at h
    obtain ⟨h1, h2, h3⟩ := h
    subst h2
    exact Or.inr rfl
  intro fuel
  induction fuel with
  | zero =>
    intro attempt fs cnt res fs' cnt' hrun hfail
    rw [dlFileDRec] at hrun
    split at hrun
    · exact leafInvalid _ _ _ _ _ _ hrun
    · split at hrun
      · exact absurd hrun (by simp)
      · split at hrun
        · exact absurd hrun (by simp)
        · rename_i r heq
          have hp := existingGate_inl _ _ _ _ _ _ _ heq
          simp at hrun
          rw [hrun] at hp
          simp [hfail] at hp
        · rename_i fs2 heq
          have hg2 := existingGate_inr _ _ _ _ _ _ _ heq
          split at hrun
          · exact absurd hrun (by simp)
          · rename_i r fs3 cnt3 heq2
            have hv := tryUrlsD_inv env retries fi attempt _ _ _ _ _ _ _ heq2
            simp at hrun
            have hdone := hv.2 r rfl
            rw [hrun.1, hfail] at hdone
            simp at hdone
          · rename_i fs3 cnt3 heq2
            have hv := tryUrlsD_inv env retries fi attempt _ _ _ _ _ _ _ heq2
            simp at hrun
            obtain ⟨h1, h2, h3⟩ := hrun
            subst h2
            left
            rw [hv.1 (Or.inr rfl)]
            exact hg2
          · rename_i fs3 cnt3 heq2
            have hv := tryUrlsD_inv env retries fi attempt _ _ _ _ _ _ _ heq2
            split at hrun
            · simp at hrun
              obtain ⟨h1, h2, h3⟩ := hrun
              subst h2
              left
              rw [hv.1 (Or.inl rfl)]
              exact hg2
            · simp at hrun
              obtain ⟨h1, h2, h3⟩ := hrun
              subst h2
              left
              rw [hv.1 (Or.inl rfl)]
              exact hg2
  | succ n ih =>
    intro attempt fs cnt res fs' cnt' hrun hfail
    rw [dlFileDRec] at hrun
    split at hrun
    · exact leafInvalid _ _ _ _ _ _ hrun
    · split at hrun
      · exact absurd hrun (by simp)
      · split at hrun
        · exact absurd hrun (by simp)
        · rename_i r heq
          have hp := existingGate_inl _ _ _ _ _ _ _ heq
          simp at hrun
          rw [hrun] at hp
          simp [hfail] at hp
        · rename_i fs2 heq
          have hg2 := existingGate_inr _ _ _ _ _ _ _ heq
          split at hrun
          · exact absurd hrun (by simp)
          · rename_i r fs3 cnt3 heq2
            have hv := tryUrlsD_inv env retries fi attempt _ _ _ _ _ _ _ heq2
            simp at hrun
            have hdone := hv.2 r rfl
            rw [hrun.1, hfail] at hdone
            simp at hdone
          · rename_i fs3 cnt3 heq2
            have hv := tryUrlsD_inv env retries fi attempt _ _ _ _ _ _ _ heq2
            simp at hrun
            obtain ⟨h1, h2, h3⟩ := hrun
            subst h2
            left
            rw [hv.1 (Or.inr rfl)]
            exact hg2
          · rename_i fs3 cnt3 heq2
            have hv := tryUrlsD_inv env retries fi attempt _ _ _ _ _ _ _ heq2
            split at hrun
            · rcases ih (attempt + 1) fs3 cnt3 res fs' cnt' hrun hfail with h | h
              · exact Or.inl h
              · left
                rw [h]
                rw [hv.1 (Or.inl rfl)]
                exact hg2
            · simp at hrun
              obtain ⟨h1, h2, h3⟩ := hrun
              subst h2
              left
              rw [hv.1 (Or.inl rfl)]
              exact hg2

/-- Failure atomicity of cmip6 download_file: a run that produces no path
(including cancellation mid-stream) either left the filesystem untouched or
ends with no file at the final target path. -/
theorem dlFileC6Rec_failure_finalC (env : Env) (fm : FileManager) (retries : Nat)
    (fi : FileInfo) :
    ∀ fuel attempt fs cnt res fs' cnt',
      dlFileC6Rec env fm retries fi fuel attempt fs cnt = .ok (res, fs', cnt') →
      res.1 = none → fs'.finalC = none ∨ fs' = fs := by
  have leafReturn : ∀ (a : DlRes) (fs fs' : FS) (cnt cnt' : Cnt) (res : DlRes),
      (Except.ok (a, fs, cnt) : Except String (DlRes × FS × Cnt)) = .ok (res, fs', cnt') →
      fs'.finalC = none ∨ fs' = fs := by
    intro a fs fs' cnt cnt' res h
    simp at h
    obtain ⟨h1, h2, h3⟩ := h
    subst h2
    exact Or.inr rfl
  intro fuel
  induction fuel with
  | zero =>
    intro attempt fs cnt res fs' cnt' hrun hfail
    rw [dlFileC6Rec] at hrun
    simp only [sessionGetC6] at hrun
    split at hrun
    · exact leafReturn _ _ _ _ _ _ hrun
    · split at hrun
      · exact leafReturn _ _ _ _ _ _ hrun
      · split at hrun
        · exact absurd hrun (by simp)
        · split at hrun
          · exact absurd hrun (by simp)
          · rename_i r heq
            have hp := existingGate_inl _ _ _ _ _ _ _ heq
            simp at hrun
            rw [hrun] at hp
            simp [hfail] at hp
          · rename_i fs2 heq
            have hg2 := existingGate_inr _ _ _ _ _ _ _ heq
            split at hrun
            · -- no qualifying URL
              simp at hrun
              obtain ⟨h1, h2, h3⟩ := hrun
              subst h2
              exact Or.inl hg2
            · -- one attempt on the first qualifying URL
              split at hrun
              · -- session.get raised (or was converted by the stop check)
                split at hrun
                · -- stop set inside the exception handler
                  simp at hrun
                  obtain ⟨h1, h2, h3⟩ := hrun
                  subst h2
                  exact Or.inl hg2
                · split at hrun
                  · -- attempt <= retries, but fuel 0 fallback
                    simp at hrun
                    obtain ⟨h1, h2, h3⟩ := hrun
                    subst h2
                    exact Or.inl hg2
                  · -- attempts exhausted
                    simp at hrun
                    obtain ⟨h1, h2, h3⟩ := hrun
                    subst h2
                    exact Or.inl hg2
              · -- streamed body
                split at hrun
                · -- cancelled mid-stream
                  rename_i fs4 cnt4 heq4
                  have hstr := congrArg (fun p => (p.2.1).finalC) heq4
                  simp only [] at hstr
                  rw [streamC6_finalC env] at hstr
                  simp at hstr
                  simp at hrun
                  obtain ⟨h1, h2, h3⟩ := hrun
                  subst h2
                  left
                  rw [← hstr]
                  exact hg2
                · -- stream complete: verification
                  rename_i fs4 cnt4 heq4
                  have hstr := congrArg (fun p => (p.2.1).finalC) heq4
                  simp only [] at hstr
                  rw [streamC6_finalC env] at hstr
                  simp at hstr
                  split at hrun
                  · exact absurd hrun (by simp)
                  · -- verified: success result, excluded by hfail
                    simp at hrun
                    obtain ⟨h1, h2, h3⟩ := hrun
                    rw [← h1] at hfail
                    simp at hfail
                  · -- mismatch: temp removed, exception handler
                    split at hrun
                    · -- stop set inside the handler
                      simp at hrun
                      obtain ⟨h1, h2, h3⟩ := hrun
                      subst h2
                      left
                      simp
                      rw [← hstr]
                      exact hg2
                    · split at hrun
                      · -- fuel 0 fallback
                        simp at hrun
                        obtain ⟨h1, h2, h3⟩ := hrun
                        subst h2
                        left
                        simp
                        rw [← hstr]
                        exact hg2
                      · -- attempts exhausted
                        simp at hrun
                        obtain ⟨h1, h2, h3⟩ := hrun
                        subst h2
                        left
                        simp
                        rw [← hstr]
                        exact hg2
  | succ n ih =>
    intro attempt fs cnt res fs' cnt' hrun hfail
    rw [dlFileC6Rec] at hrun
    simp only [sessionGetC6] at hrun
    split at hrun
    · exact leafReturn _ _ _ _ _ _ hrun
    · split at hrun
      · exact leafReturn _ _ _ _ _ _ hrun
      · split at hrun
        · exact absurd hrun (by simp)
        · split at hrun
          · exact absurd hrun (by simp)
          · rename_i r heq
            have hp := existingGate_inl _ _ _ _ _ _ _ heq
            simp at hrun
            rw [hrun] at hp
            simp [hfail] at hp
          · rename_i fs2 heq
            have hg2 := existingGate_inr _ _ _ _ _ _ _ heq
            split at hrun
            · -- no qualifying URL
              simp at hrun
              obtain ⟨h1, h2, h3⟩ := hrun
              subst h2
              exact Or.inl hg2
            · -- one attempt on the first qualifying URL
              split at hrun
              · -- session.get raised (or was converted by the stop check)
                split at hrun
                · -- stop set inside the exception handler
                  simp at hrun
                  obtain ⟨h1, h2, h3⟩ := hrun
                  subst h2
                  exact Or.inl hg2
                · split at hrun
                  · -- attempt <= retries: the recursive re-invocation
                    rcases ih _ _ _ _ _ _ hrun hfail with h | h
                    · exact Or.inl h
                    · left
                      rw [h]
                      exact hg2
                  · -- attempts exhausted
                    simp at hrun
                    obtain ⟨h1, h2, h3⟩ := hrun
                    subst h2
                    exact Or.inl hg2
              · -- streamed body
                split at hrun
                · -- cancelled mid-stream
                  rename_i fs4 cnt4 heq4
                  have hstr := congrArg (fun p => (p.2.1).finalC) heq4
                  simp only [] at hstr
                  rw [streamC6_finalC env] at hstr
                  simp at hstr
                  simp at hrun
                  obtain ⟨h1, h2, h3⟩ := hrun
                  subst h2
                  left
                  rw [← hstr]
                  exact hg2
                · -- stream complete: verification
                  rename_i fs4 cnt4 heq4
                  have hstr := congrArg (fun p => (p.2.1).finalC) heq4
                  simp only [] at hstr
                  rw [streamC6_finalC env] at hstr
                  simp at hstr
                  split at hrun
                  · exact absurd hrun (by simp)
                  · -- verified: success result, excluded by hfail
                    simp at hrun
                    obtain ⟨h1, h2, h3⟩ := hrun
                    rw [← h1] at hfail
                    simp at hfail
                  · -- mismatch: temp removed, exception handler
                    split at hrun
                    · -- stop set inside the handler
                      simp at hrun
                      obtain ⟨h1, h2, h3⟩ := hrun
                      subst h2
                      left
                      simp
                      rw [← hstr]
                      exact hg2
                    · split at hrun
                      · -- the recursive re-invocation
                        rcases ih _ _ _ _ _ _ hrun hfail with h | h
                        · exact Or.inl h
                        · left
                          rw [h]
                          simp
                          rw [← hstr]
                          exact hg2
                      · -- attempts exhausted
                        simp at hrun
                        obtain ⟨h1, h2, h3⟩ := hrun
                        subst h2
                        left
                        simp
                        rw [← hstr]
                        exact hg2

/-- C2: atomicity of the final target path, for both `download_file`
implementations.  Whenever a run returns the failure or cancellation outcome
(no path produced), either the filesystem is exactly as it was (a return
before any disk write: entry stop check, invalid descriptor, no usable URL
at an untouched target) or no file exists at the final target path — bytes
are only ever streamed to the `.tmp` companion path, and the final path is
produced only by renaming a fully written, checksum-verified temp file. -/
theorem download_file_atomic_final (env : Env) (fm : FileManager) (retries : Nat)
    (fi : FileInfo) :
    (∀ attempt fs cnt res fs' cnt',
      dlFileC6 env fm retries fi attempt fs cnt = .ok (res, fs', cnt') →
      res.1 = none → fs'.finalC = none ∨ fs' = fs) ∧
    (∀ attempt fs cnt res fs' cnt',
      dlFileD env fm retries fi attempt fs cnt = .ok (res, fs', cnt') →
      res.1 = none → fs'.finalC = none ∨ fs' = fs) :=
  ⟨fun attempt fs cnt res fs' cnt' h hf =>
      dlFileC6Rec_failure_finalC env fm retries fi _ attempt fs cnt res fs' cnt' h hf,
    fun attempt fs cnt res fs' cnt' h hf =>
      dlFileDRec_failure_finalC env fm retries fi _ attempt fs cnt res fs' cnt' h hf⟩

/-- Witness for the C2 theorem: a checksum-mismatch failure after a full
stream leaves nothing at the final path. -/
theorem download_file_atomic_final_witness :
    dlFileD envAllOk fmFlat 1 fiBadCk 1 fs0 cnt0 =
      .ok ((none, some fiBadCk), fs0, ⟨1, 0, 0⟩) ∧
    (fs0.finalC = none ∨ fs0 = fs0) :=
  ⟨rfl, (download_file_atomic_final envAllOk fmFlat 1 fiBadCk).2 1 fs0 cnt0
    ((none : Option String), some fiBadCk) fs0 ⟨1, 0, 0⟩ rfl rfl⟩

/-- C10: a descriptor with a missing checksum facet, or one whose checksum
value is the empty string, makes `verify_checksum` return `True` for
arbitrary file content; consequently any pre-existing file at the target
path, whatever its bytes, is accepted as an already-successful download with
no network call, and a freshly downloaded body is accepted and renamed into
place without any integrity verification. -/
theorem verify_checksum_absent_accepts (env : Env) (fm : FileManager)
    (retries attempt : Nat) (fi : FileInfo) (u : String) (us : List String)
    (data : Bytes) (chunks : List Bytes) (tmp : Option Bytes) (cnt : Cnt) (p : String)
    (hck : fi.checksum = none ∨ ∃ t, fi.checksum = some ("" :: t))
    (hurl : fi.url = u :: us) (htitle : fi.title.getD "" ≠ "")
    (hp : getOutputPathD fm fi = .ok p)
    (hnet : env.net cnt.reqs = .ok chunks) :
    (∀ hm dflt dat, verifyChecksum hm dflt dat fi = .ok true) ∧
    dlFileD env fm retries fi attempt ⟨some data, tmp⟩ cnt =
      .ok ((some p, none), ⟨some data, tmp⟩, cnt) ∧
    dlFileD env fm retries fi attempt ⟨none, tmp⟩ cnt =
      .ok ((some p, none), ⟨some (writtenBytes chunks), none⟩,
        { cnt with reqs := cnt.reqs + 1 }) := by
  have hv : ∀ hm dflt dat, verifyChecksum hm dflt dat fi = .ok true := by
    intro hm dflt dat
    unfold verifyChecksum facetFirst
    rcases hck with h | ⟨t, h⟩ <;> simp [h, ok_bind, pure_ok]
  refine ⟨hv, ?_, ?_⟩
  · rw [dlFileD, dlFileDRec]
    simp [hurl, htitle, hp, existingGate, hv]
  · rw [dlFileD, dlFileDRec]
    simp [hurl, htitle, hp, existingGate, tryUrlsD, sessionGetD, hnet, hv]

/-- Witness for the C10 theorem at a concrete checksum-free descriptor. -/
theorem verify_checksum_absent_accepts_witness :
    (fiA.checksum = none ∨ ∃ t, fiA.checksum = some ("" :: t)) ∧
    (∀ hm dflt dat, verifyChecksum hm dflt dat fiA = .ok true) ∧
    dlFileD envAllOk fmFlat 5 fiA 1 ⟨some [9], none⟩ cnt0 =
      .ok ((some "d/A_100km_a.nc", none), ⟨some [9], none⟩, cnt0) ∧
    dlFileD envAllOk fmFlat 5 fiA 1 ⟨none, none⟩ cnt0 =
      .ok ((some "d/A_100km_a.nc", none), ⟨some (writtenBytes [[1, 2]]), none⟩,
        { cnt0 with reqs := 1 }) := by
  have h := verify_checksum_absent_accepts envAllOk fmFlat 5 1 fiA "u|HTTPServer" []
    [9] [[1, 2]] none cnt0 "d/A_100km_a.nc" (Or.inl rfl) rfl (by decide) rfl rfl
  exact ⟨Or.inl rfl, h.1, h.2.1, h.2.2⟩

/-- The collection loop of downloader.py `download_all`: with every task
finishing in one of the two `download_file` result shapes, the accumulated
lists are exactly the produced paths and the failed descriptors, in
order. -/
theorem collectD_spec (outcome : FileInfo → Except String DlRes) :
    ∀ (L : List FileInfo) (dl0 : List String) (fl0 : List FileInfo),
      (∀ f ∈ L, (∃ p, outcome f = .ok ((some p, none) : DlRes)) ∨
        outcome f = .ok ((none, some f) : DlRes)) →
      collectD outcome L (dl0, fl0) =
        .ok (dl0 ++ L.filterMap (fun f => pathOut (outcome f)),
          fl0 ++ L.filter (fun f => isFailOut (outcome f))) := by
  intro L
  induction L with
  | nil => intro dl0 fl0 _; simp [collectD]
  | cons f rest ih =>
    intro dl0 fl0 hshape
    have hrest : ∀ g ∈ rest, (∃ p, outcome g = .ok ((some p, none) : DlRes)) ∨
        outcome g = .ok ((none, some g) : DlRes) :=
      fun g hg => hshape g (by simp [hg])
    rcases hshape f (by simp) with ⟨p, hp⟩ | hp
    · simp only [collectD, hp]
      rw [ih _ _ hrest]
      simp [pathOut, isFailOut, hp, List.filterMap_cons, List.filter_cons]
    · simp only [collectD, hp]
      rw [ih _ _ hrest]
      simp [pathOut, isFailOut, hp, List.filterMap_cons, List.filter_cons]

/-- Each task outcome contributes exactly one element to exactly one of the
two lists. -/
theorem partition_length (outcome : FileInfo → Except String DlRes) :
    ∀ L : List FileInfo,
      (∀ f ∈ L, (∃ p, outcome f = .ok ((some p, none) : DlRes)) ∨
        outcome f = .ok ((none, some f) : DlRes)) →
      (L.filterMap (fun f => pathOut (outcome f))).length +
        (L.filter (fun f => isFailOut (outcome f))).length = L.length := by
  intro L
  induction L with
  | nil => intro _; simp
  | cons f rest ih =>
    intro hshape
    have hrest : ∀ g ∈ rest, (∃ p, outcome g = .ok ((some p, none) : DlRes)) ∨
        outcome g = .ok ((none, some g) : DlRes) :=
      fun g hg => hshape g (by simp [hg])
    rcases hshape f (by simp) with ⟨p, hp⟩ | hp
    · have h1 : pathOut (outcome f) = some p := by simp [pathOut, hp]
      have h2 : isFailOut (outcome f) = false := by simp [isFailOut, hp]
      simp [List.filterMap_cons, List.filter_cons, h1, h2]
      have hr := ih hrest
      omega
    · have h1 : pathOut (outcome f) = none := by simp [pathOut, hp]
      have h2 : isFailOut (outcome f) = true := by simp [isFailOut, hp]
      simp [List.filterMap_cons, List.filter_cons, h1, h2]
      have hr := ih hrest
      omega

/-- downloader.py `download_all` partitions the descriptors it submits — the
first `min(len(files), max_downloads)` when a nonzero `max_downloads` cap is
configured, all of them otherwise — into downloaded paths and failed
descriptors: the lengths add up to that submitted count, no descriptor lands
in both lists, and descriptors beyond the cap are silently dropped rather
than reported. -/
theorem download_all_partition (outcome : FileInfo → Except String DlRes)
    (maxD : Option Nat) (files : List FileInfo)
    (hshape : ∀ f ∈ files, (∃ p, outcome f = .ok ((some p, none) : DlRes)) ∨
      outcome f = .ok ((none, some f) : DlRes)) :
    ∃ dl fl, downloadAllD outcome maxD files = .ok (dl, fl) ∧
      dl.length + fl.length = effectiveTotal maxD files.length ∧
      dl = (files.take (effectiveTotal maxD files.length)).filterMap
        (fun f => pathOut (outcome f)) ∧
      fl = (files.take (effectiveTotal maxD files.length)).filter
        (fun f => isFailOut (outcome f)) := by
  have hTle : effectiveTotal maxD files.length ≤ files.length := by
    rcases maxD with _ | m
    · simp [effectiveTotal]
    · simp only [effectiveTotal]
      split <;> omega
  have htake : (files.take (effectiveTotal maxD files.length)).length =
      effectiveTotal maxD files.length := by
    simp [List.length_take]
    omega
  have hsub : ∀ f ∈ files.take (effectiveTotal maxD files.length),
      (∃ p, outcome f = .ok ((some p, none) : DlRes)) ∨
      outcome f = .ok ((none, some f) : DlRes) :=
    fun f hf => hshape f (List.take_subset _ _ hf)
  refine ⟨(files.take (effectiveTotal maxD files.length)).filterMap
      (fun f => pathOut (outcome f)),
    (files.take (effectiveTotal maxD files.length)).filter
      (fun f => isFailOut (outcome f)), ?_, ?_, rfl, rfl⟩
  · rw [downloadAllD]
    by_cases h0 : effectiveTotal maxD files.length = 0
    · simp [h0]
    · simp only [h0, if_false]
      have hc := collectD_spec outcome (files.take (effectiveTotal maxD files.length))
        [] [] hsub
      simpa using hc
  · have hlen := partition_length outcome
      (files.take (effectiveTotal maxD files.length)) hsub
    rw [htake] at hlen
    exact hlen

/-- C1, counterexample: two descriptors submitted with `max_downloads = 1`
and every download succeeding yield `len(downloaded) + len(failed) = 1`,
not 2 — the second descriptor ends in neither list. -/
theorem download_all_cap_cex :
    downloadAllD outcomeOk (some 1) [fiA, fiB] = .ok (["d/A_100km_a.nc"], []) ∧
    1 + 0 ≠ 2 :=
  ⟨rfl, by omega⟩

/-- The by-id deduplication of `fetch_datasets` keeps, for every nonempty
key, exactly the first record carrying it, and drops every record whose id
is empty or already seen. -/
theorem dedupById_filter (k : String) :
    ∀ (files : List FileInfo) (seen : List String),
      (dedupById files seen).filter (fun f => f.id == k) =
        (if k = "" ∨ k ∈ seen then [] else (files.filter (fun f => f.id == k)).take 1) := by
  intro files
  induction files with
  | nil =>
    intro seen
    simp [dedupById]
  | cons f rest ih =>
    intro seen
    rw [dedupById]
    by_cases hkeep : f.id ≠ "" ∧ f.id ∉ seen
    · rw [if_pos hkeep]
      by_cases hfk : f.id = k
      · have hck : ¬ (k = "" ∨ k ∈ seen) := by
          rw [← hfk]
          push_neg
          exact hkeep
        rw [if_neg hck]
        have hbeq : (f.id == k) = true := by simp [hfk]
        simp only [List.filter_cons, hbeq, if_true]
        rw [ih (f.id :: seen)]
        rw [if_pos (Or.inr (by simp [hfk]))]
        simp
      · have hbeq : (f.id == k) = false := by simp [hfk]
        simp only [List.filter_cons, hbeq, Bool.false_eq_true, if_false]
        rw [ih (f.id :: seen)]
        by_cases hk : k = "" ∨ k ∈ seen
        · have hk2 : k = "" ∨ k ∈ f.id :: seen := by
            rcases hk with h | h
            · exact Or.inl h
            · exact Or.inr (List.mem_cons_of_mem _ h)
          rw [if_pos hk2, if_pos hk]
        · have hk2 : ¬ (k = "" ∨ k ∈ f.id :: seen) := by
            rcases not_or.mp hk with ⟨hk1, hk3⟩
            push_neg
            refine ⟨hk1, ?_⟩
            simp only [List.mem_cons]
            push_neg
            exact ⟨fun h => hfk h.symm, hk3⟩
          rw [if_neg hk2, if_neg hk]
    · rw [if_neg hkeep]
      rw [ih seen]
      by_cases hk : k = "" ∨ k ∈ seen
      · rw [if_pos hk, if_pos hk]
      · have hfk : f.id ≠ k := by
          intro h
          rcases not_or.mp hk with ⟨hk1, hk2⟩
          rcases not_and_or.mp hkeep with h1 | h2
          · push_neg at h1
            rw [h1] at h
            exact hk1 h.symm
          · push_neg at h2
            rw [h] at h2
            exact hk2 h2
        have hbeq : (f.id == k) = false := by simp [hfk]
        rw [if_neg hk, if_neg hk]
        simp only [List.filter_cons, hbeq, Bool.false_eq_true, if_false]

/-- An association list without the key has no entry for it. -/
theorem entryOf_eq_nil (k : String) :
    ∀ m : List (String × FileInfo), k ∉ m.map Prod.fst → entryOf m k = [] := by
  intro m
  induction m with
  | nil => intro _; rfl
  | cons p rest ih =>
    intro h
    simp only [List.map_cons, List.mem_cons] at h
    push_neg at h
    have hne : ¬ p.1 = k := fun hh => h.1 hh.symm
    have hbeq : (p.1 == k) = false := by simp [hne]
    simp only [entryOf, List.filter_cons, hbeq, Bool.false_eq_true, if_false]
    exact ih h.2

/-- A dict assignment makes its key map to exactly the assigned record. -/
theorem entryOf_upsert_self (k : String) (v : FileInfo) :
    ∀ m : List (String × FileInfo), (m.map Prod.fst).Nodup →
      entryOf (upsertTitle m k v) k = [v] := by
  intro m
  induction m with
  | nil =>
    intro _
    simp [upsertTitle, entryOf]
  | cons p rest ih =>
    intro hnd
    obtain ⟨k', v'⟩ := p
    simp only [List.map_cons, List.nodup_cons] at hnd
    rw [upsertTitle]
    by_cases hk : k' = k
    · rw [if_pos hk]
      subst hk
      simp only [entryOf, List.filter_cons, beq_self_eq_true, if_true, List.map_cons]
      have := entryOf_eq_nil k' rest hnd.1
      simp only [entryOf] at this
      rw [this]
    · rw [if_neg hk]
      have hbeq : (k' == k) = false := by simp [hk]
      simp only [entryOf, List.filter_cons, hbeq, Bool.false_eq_true, if_false]
      exact ih hnd.2

/-- A dict assignment leaves every other key's entry unchanged. -/
theorem entryOf_upsert_other (k k' : String) (v : FileInfo) (hkk : k' ≠ k) :
    ∀ m : List (String × FileInfo),
      entryOf (upsertTitle m k' v) k = entryOf m k := by
  intro m
  induction m with
  | nil =>
    have hbeq : (k' == k) = false := by simp [hkk]
    simp [upsertTitle, entryOf, hbeq]
  | cons p rest ih =>
    obtain ⟨k2, v2⟩ := p
    rw [upsertTitle]
    by_cases hk : k2 = k'
    · rw [if_pos hk]
      subst hk
      have hbeq : (k2 == k) = false := by simp [hkk]
      simp [entryOf, List.filter_cons, hbeq]
    · rw [if_neg hk]
      simp only [entryOf, List.filter_cons] at ih ⊢
      by_cases h2 : (k2 == k) = true
      · simp only [h2, if_true, List.map_cons]
        rw [ih]
      · have hb : (k2 == k) = false := by
          cases hx : (k2 == k)
          · rfl
          · exact absurd hx h2
        simp only [hb, Bool.false_eq_true, if_false]
        rw [ih]

/-- A dict assignment keeps the key order, appending a fresh key at the
end. -/
theorem upsertTitle_keys (k : String) (v : FileInfo) :
    ∀ m : List (String × FileInfo),
      (upsertTitle m k v).map Prod.fst =
        if k ∈ m.map Prod.fst then m.map Prod.fst else m.map Prod.fst ++ [k] := by
  intro m
  induction m with
  | nil => simp [upsertTitle]
  | cons p rest ih =>
    obtain ⟨k', v'⟩ := p
    rw [upsertTitle]
    by_cases hk : k' = k
    · rw [if_pos hk]
      subst hk
      simp
    · rw [if_neg hk]
      simp only [List.map_cons, List.mem_cons]
      have hne : ¬ k = k' := fun h => hk h.symm
      by_cases hmem : k ∈ rest.map Prod.fst
      · rw [if_pos (Or.inr hmem)]
        simp only [ih, if_pos hmem]
      · rw [if_neg (by push_neg; exact ⟨hne, hmem⟩)]
        simp only [ih, if_neg hmem]
        simp

/-- Dict keys stay distinct under assignment. -/
theorem upsertTitle_nodup (k : String) (v : FileInfo)
    (m : List (String × FileInfo)) (h : (m.map Prod.fst).Nodup) :
    ((upsertTitle m k v).map Prod.fst).Nodup := by
  rw [upsertTitle_keys]
  by_cases hmem : k ∈ m.map Prod.fst
  · rw [if_pos hmem]
    exact h
  · rw [if_neg hmem]
    simp [List.nodup_append, h, hmem]

/-- Every entry after an assignment is an old entry or the assigned
pair. -/
theorem upsertTitle_mem (k : String) (v : FileInfo) (p : String × FileInfo) :
    ∀ m : List (String × FileInfo), p ∈ upsertTitle m k v → p ∈ m ∨ p = (k, v) := by
  intro m
  induction m with
  | nil =>
    intro h
    simp [upsertTitle] at h
    exact Or.inr h
  | cons q rest ih =>
    obtain ⟨k', v'⟩ := q
    rw [upsertTitle]
    by_cases hk : k' = k
    · rw [if_pos hk]
      intro h
      rcases List.mem_cons.mp h with h | h
      · exact Or.inr h
      · exact Or.inl (List.mem_cons_of_mem _ h)
    · rw [if_neg hk]
      intro h
      rcases List.mem_cons.mp h with h | h
      · exact Or.inl (h ▸ List.mem_cons_self _ _)
      · rcases ih h with h2 | h2
        · exact Or.inl (List.mem_cons_of_mem _ h2)
        · exact Or.inr h2

/-- The dict comprehension keeps its keys distinct. -/
theorem titleFold_nodup :
    ∀ (files : List FileInfo) (m : List (String × FileInfo)),
      (m.map Prod.fst).Nodup → (((titleFold m files).map Prod.fst)).Nodup := by
  intro files
  induction files with
  | nil => intro m h; exact h
  | cons f rest ih =>
    intro m h
    rw [titleFold]
    cases hf : f.title with
    | none => exact ih m h
    | some t => exact ih _ (upsertTitle_nodup t f m h)

/-- Every record stored by the dict comprehension is stored under its own
title. -/
theorem titleFold_coherent :
    ∀ (files : List FileInfo) (m : List (String × FileInfo)),
      (∀ p ∈ m, p.2.title = some p.1) →
      ∀ p ∈ titleFold m files, p.2.title = some p.1 := by
  intro files
  induction files with
  | nil => intro m h; exact h
  | cons f rest ih =>
    intro m h
    rw [titleFold]
    cases hf : f.title with
    | none => exact ih m h
    | some t =>
      refine ih _ ?_
      intro p hp
      rcases upsertTitle_mem t f p m hp with h2 | h2
      · exact h p h2
      · rw [h2]
        exact hf

/-- A nonempty list has a last element. -/
theorem getLastQ_cons_ne_none (w : FileInfo) (ws : List FileInfo) :
    (w :: ws).getLast? ≠ none := by
  induction ws generalizing w with
  | nil => simp
  | cons b bs ih =>
    rw [List.getLast?_cons_cons]
    exact ih b

/-- After the dict comprehension runs, the entry at title `k` is the last
input record with that title. -/
theorem titleFold_entry (k : String) :
    ∀ (files : List FileInfo) (m : List (String × FileInfo)),
      (m.map Prod.fst).Nodup →
      entryOf (titleFold m files) k =
        (match (files.filter (fun f => f.title == some k)).getLast? with
          | some v => [v]
          | none => entryOf m k) := by
  intro files
  induction files with
  | nil => intro m _; simp [titleFold]
  | cons f rest ih =>
    intro m hnd
    rw [titleFold]
    cases hf : f.title with
    | none =>
      rw [ih m hnd]
      have hbeq : (f.title == some k) = false := by simp [hf]
      simp only [List.filter_cons, hbeq, Bool.false_eq_true, if_false]
    | some t =>
      rw [ih _ (upsertTitle_nodup t f m hnd)]
      by_cases htk : t = k
      · subst htk
        have hbeq : (f.title == some t) = true := by simp [hf]
        simp only [List.filter_cons, hbeq, if_true]
        rcases hlist : rest.filter (fun g => g.title == some t) with _ | ⟨w, ws⟩
        · rw [hlist]
          simp only [List.getLast?_nil, List.getLast?_singleton]
          exact entryOf_upsert_self t f m hnd
        · rw [hlist, List.getLast?_cons_cons]
          cases hlv : (w :: ws).getLast? with
          | some lv => rfl
          | none => exact absurd hlv (getLastQ_cons_ne_none w ws)
      · have hbeq : (f.title == some k) = false := by simp [hf, htk]
        simp only [List.filter_cons, hbeq, Bool.false_eq_true, if_false]
        cases hrf : (rest.filter (fun g => g.title == some k)).getLast? with
        | some v => rfl
        | none => exact entryOf_upsert_other k t f htk m



/-- Filtering the dict values by a title selects exactly the entry stored
under that title. -/
theorem mapSnd_filter_eq_entry (k : String) :
    ∀ m : List (String × FileInfo), (∀ p ∈ m, p.2.title = some p.1) →
      (m.map Prod.snd).filter (fun f => f.title == some k) = entryOf m k := by
  intro m
  induction m with
  | nil => intro _; rfl
  | cons p rest ih =>
    intro hcoh
    obtain ⟨k', v'⟩ := p
    have hv : v'.title = some k' := hcoh (k', v') (List.mem_cons_self _ _)
    have hrest : ∀ q ∈ rest, q.2.title = some q.1 :=
      fun q hq => hcoh q (List.mem_cons_of_mem _ hq)
    simp only [List.map_cons, List.filter_cons, entryOf, hv]
    by_cases hk : k' = k
    · subst hk
      simp only [beq_self_eq_true, if_true, List.map_cons]
      have := ih hrest
      simp only [entryOf] at this
      rw [this]
    · have hb1 : ((some k' : Option String) == some k) = false := by simp [hk]
      have hb2 : (k' == k) = false := by simp [hk]
      simp only [hb1, hb2, Bool.false_eq_true, if_false]
      have := ih hrest
      simp only [entryOf] at this
      rw [this]

/-- C4, amended: the code runs two separate deduplication passes and
implements no id-else-filename fallback key.  `fetch_datasets` dedups by the
`id` facet keeping, for each nonempty id, exactly the first-encountered
record (records with a missing or empty id are dropped); `run_download` then
dedups by `title` via a dict comprehension, keeping, for each title, the
last-encountered record (records without a title key are dropped). -/
theorem dedup_key_characterization (files : List FileInfo) (k : String) :
    (dedupById files []).filter (fun f => f.id == k) =
      (if k = "" then [] else (files.filter (fun f => f.id == k)).take 1) ∧
    (dedupByTitle files).filter (fun f => f.title == some k) =
      ((files.filter (fun f => f.title == some k)).getLast?).toList := by
  constructor
  · have h := dedupById_filter k files []
    simpa using h
  · rw [dedupByTitle]
    rw [mapSnd_filter_eq_entry k _ (titleFold_coherent files [] (by simp))]
    rw [titleFold_entry k files [] (by simp)]
    cases (files.filter (fun f => f.title == some k)).getLast? <;> simp [entryOf]

/-- C4, counterexample: two records sharing a title deduplicate to the
second (last-encountered) one, not the first, and a record with no id is
dropped entirely by the by-id pass instead of being keyed by filename. -/
theorem dedup_first_wins_cex :
    dedupByTitle [fiA, fiA2] = [fiA2] ∧ fiA2 ≠ fiA ∧ dedupById [fiNoId] [] = [] :=
  ⟨rfl, by decide, rfl⟩

/-- When the pre-download existing-file gate of cmip6 `download_file` exits
early (verified existing file), the returned result is exactly
`(some path, None)` with the filesystem and counters untouched. -/
theorem existingGate_inl_full (h : HashModel) (t : String) (fi : FileInfo) (fs : FS)
    (p : String) (cnt : Cnt) (r : DlRes × FS × Cnt)
    (hg : existingGate h t fi fs p cnt = .ok (.inl r)) : r = ((some p, none), fs, cnt) := by
  unfold existingGate at hg
  split at hg
  · split at hg
    · simp_all
    · simp at hg
      exact hg.symm
    · simp_all
  · simp_all

/-- Every normal return of the cmip6 `download_file` retry loop is either
`(some path, None)` (success) or `(None, file_info)` (failure or entry-time
cancellation): the two result slots are mutually exclusive. -/
theorem dlFileC6Rec_shape (env : Env) (fm : FileManager) (retries : Nat) (fi : FileInfo) :
    ∀ fuel attempt fs cnt res fs' cnt',
      dlFileC6Rec env fm retries fi fuel attempt fs cnt = .ok (res, fs', cnt') →
      (∃ p, res = ((some p, none) : DlRes)) ∨ res = ((none, some fi) : DlRes) := by
  have leafR : ∀ (fsa fsb : FS) (ca cb : Cnt) (res : DlRes),
      (Except.ok ((none, some fi), fsa, ca) : Except String (DlRes × FS × Cnt)) =
        .ok (res, fsb, cb) →
      (∃ p, res = ((some p, none) : DlRes)) ∨ res = ((none, some fi) : DlRes) := by
    intro fsa fsb ca cb res h
    simp at h
    exact Or.inr h.1.symm
  have leafL : ∀ (pth : String) (fsa fsb : FS) (ca cb : Cnt) (res : DlRes),
      (Except.ok ((some pth, none), fsa, ca) : Except String (DlRes × FS × Cnt)) =
        .ok (res, fsb, cb) →
      (∃ p, res = ((some p, none) : DlRes)) ∨ res = ((none, some fi) : DlRes) := by
    intro pth fsa fsb ca cb res h
    simp at h
    exact Or.inl ⟨pth, h.1.symm⟩
  intro fuel
  induction fuel with
  | zero =>
    intro attempt fs cnt res fs' cnt' hrun
    rw [dlFileC6Rec] at hrun
    simp only [sessionGetC6] at hrun
    split at hrun
    · exact leafR _ _ _ _ _ hrun
    · split at hrun
      · exact leafR _ _ _ _ _ hrun
      · split at hrun
        · exact absurd hrun (by simp)
        · split at hrun
          · exact absurd hrun (by simp)
          · rename_i r heq
            rw [existingGate_inl_full _ _ _ _ _ _ _ heq] at hrun
            exact leafL _ _ _ _ _ _ hrun
          · split at hrun
            · exact leafR _ _ _ _ _ hrun
            · split at hrun
              · split at hrun
                · exact leafR _ _ _ _ _ hrun
                · split at hrun
                  · exact leafR _ _ _ _ _ hrun
                  · exact leafR _ _ _ _ _ hrun
              · split at hrun
                · exact leafR _ _ _ _ _ hrun
                · split at hrun
                  · exact absurd hrun (by simp)
                  · exact leafL _ _ _ _ _ _ hrun
                  · split at hrun
                    · exact leafR _ _ _ _ _ hrun
                    · split at hrun
                      · exact leafR _ _ _ _ _ hrun
                      · exact leafR _ _ _ _ _ hrun
  | succ n ih =>
    intro attempt fs cnt res fs' cnt' hrun
    rw [dlFileC6Rec] at hrun
    simp only [sessionGetC6] at hrun
    split at hrun
    · exact leafR _ _ _ _ _ hrun
    · split at hrun
      · exact leafR _ _ _ _ _ hrun
      · split at hrun
        · exact absurd hrun (by simp)
        · split at hrun
          · exact absurd hrun (by simp)
          · rename_i r heq
            rw [existingGate_inl_full _ _ _ _ _ _ _ heq] at hrun
            exact leafL _ _ _ _ _ _ hrun
          · split at hrun
            · exact leafR _ _ _ _ _ hrun
            · split at hrun
              · split at hrun
                · exact leafR _ _ _ _ _ hrun
                · split at hrun
                  · exact ih _ _ _ _ _ _ hrun
                  · exact leafR _ _ _ _ _ hrun
              · split at hrun
                · exact leafR _ _ _ _ _ hrun
                · split at hrun
                  · exact absurd hrun (by simp)
                  · exact leafL _ _ _ _ _ _ hrun
                  · split at hrun
                    · exact leafR _ _ _ _ _ hrun
                    · split at hrun
                      · exact ih _ _ _ _ _ _ hrun
                      · exact leafR _ _ _ _ _ hrun

/-- The cmip6 executor produces exactly one completed future per submitted
descriptor. -/
theorem runTasksC6_len (env : Env) (fm : FileManager) (retries : Nat) (fsOf : Nat → FS) :
    ∀ (L : List FileInfo) (i : Nat) (cnt : Cnt),
      ((runTasksC6 env fm retries fsOf L i cnt).1).length = L.length := by
  intro L
  induction L with
  | nil => intro i cnt; simp [runTasksC6]
  | cons f rest ih =>
    intro i cnt
    simp only [runTasksC6]
    split
    · rcases hres : runTasksC6 env fm retries fsOf rest (i + 1) cnt with ⟨rs, cf⟩
      have hlen := ih (i + 1) cnt
      rw [hres] at hlen
      simp at hlen ⊢
      exact hlen
    · rename_i r fsx cntx heq
      rcases hres : runTasksC6 env fm retries fsOf rest (i + 1) cntx with ⟨rs, cf⟩
      have hlen := ih (i + 1) cntx
      rw [hres] at hlen
      simp at hlen ⊢
      exact hlen

/-- Every completed future of the cmip6 executor satisfies the exclusive
two-slot shape `pairShape`. -/
theorem runTasksC6_shape (env : Env) (fm : FileManager) (retries : Nat) (fsOf : Nat → FS) :
    ∀ (L : List FileInfo) (i : Nat) (cnt : Cnt) r,
      r ∈ (runTasksC6 env fm retries fsOf L i cnt).1 → pairShape r := by
  intro L
  induction L with
  | nil => intro i cnt r hr; simp [runTasksC6] at hr
  | cons f rest ih =>
    intro i cnt r hr
    simp only [runTasksC6] at hr
    split at hr
    · rcases hres : runTasksC6 env fm retries fsOf rest (i + 1) cnt with ⟨rs, cf⟩
      simp at hr
      rcases hr with rfl | hr
      · exact Or.inr ⟨rfl, f, rfl⟩
      · exact ih (i + 1) cnt r hr
    · rename_i r0 fsx cntx heq
      rcases hres : runTasksC6 env fm retries fsOf rest (i + 1) cntx with ⟨rs, cf⟩
      simp at hr
      rcases hr with rfl | hr
      · rcases dlFileC6Rec_shape env fm retries f _ 1 (fsOf i) cnt r0 fsx cntx heq
          with ⟨p, rfl⟩ | rfl
        · exact Or.inl ⟨p, rfl, rfl⟩
        · exact Or.inr ⟨rfl, f, rfl⟩
      · exact ih (i + 1) cntx r hr

/-- The cmip6 `as_completed` loop consumes some prefix of the completed
futures — all of them when the stop event never fires, possibly fewer under
cancellation because the loop `break`s — and appends each consumed result's
path (resp. failed descriptor) to the corresponding accumulator. -/
theorem collectC6_spec (env : Env) :
    ∀ (results : List (Except String DlRes × FileInfo)) (dl0 : List String)
      (fl0 : List FileInfo) (cnt : Cnt),
      ∃ k cnt2, k ≤ results.length ∧
        collectC6 env results (dl0, fl0) cnt =
          ((dl0 ++ (results.take k).filterMap pathOutPair,
            fl0 ++ (results.take k).filterMap failOutPair), cnt2) ∧
        ((∀ n, env.stop n = false) → k = results.length) := by
  intro results
  induction results with
  | nil =>
    intro dl0 fl0 cnt
    exact ⟨0, cnt, by omega, by simp [collectC6], fun _ => rfl⟩
  | cons rf rest ih =>
    intro dl0 fl0 cnt
    obtain ⟨r, f⟩ := rf
    by_cases hstop : env.stop cnt.clk = true
    · refine ⟨0, { cnt with clk := cnt.clk + 1 }, by omega, ?_, ?_⟩
      · simp [collectC6, hstop]
      · intro hs
        rw [hs cnt.clk] at hstop
        exact absurd hstop Bool.false_ne_true
    · rcases r with e | ⟨pOpt, fOpt⟩
      · obtain ⟨k, cnt2, hk, heq, hs⟩ := ih dl0 (fl0 ++ [f]) { cnt with clk := cnt.clk + 1 }
        refine ⟨k + 1, cnt2, by simp; omega, ?_, ?_⟩
        · simp only [collectC6, hstop, Bool.false_eq_true, if_false]
          rw [heq]
          simp [pathOutPair, failOutPair]
        · intro hs2
          simp [hs hs2]
      · obtain ⟨k, cnt2, hk, heq, hs⟩ :=
          ih (dl0 ++ pOpt.toList) (fl0 ++ fOpt.toList) { cnt with clk := cnt.clk + 1 }
        refine ⟨k + 1, cnt2, by simp; omega, ?_, ?_⟩
        · simp only [collectC6, hstop, Bool.false_eq_true, if_false]
          rw [heq]
          rcases pOpt with _ | p <;> rcases fOpt with _ | g <;>
            simp [pathOutPair, failOutPair]
        · intro hs2
          simp [hs hs2]

/-- Over results of exclusive two-slot shape, the extracted paths and failed
descriptors together account for every result exactly once. -/
theorem pairShape_count :
    ∀ results : List (Except String DlRes × FileInfo),
      (∀ r ∈ results, pairShape r) →
      (results.filterMap pathOutPair).length + (results.filterMap failOutPair).length =
        results.length := by
  intro results
  induction results with
  | nil => intro _; simp
  | cons rf rest ih =>
    intro hshape
    have hrest : ∀ r ∈ rest, pairShape r := fun r hr => hshape r (by simp [hr])
    have hr := ih hrest
    rcases hshape rf (by simp) with ⟨p, hp, hn⟩ | ⟨hn, g, hg⟩
    · simp [List.filterMap_cons, hp, hn]
      omega
    · simp [List.filterMap_cons, hn, hg]
      omega
/-- C1, amended: `download_all` submits only the first
`min(len(files), max_downloads)` descriptors when a nonzero cap is set (all
of them otherwise), and each submitted descriptor resolves to exactly one of
the two result lists, never both. In downloader.py (no stop event), when no
task raises, `len(downloaded) + len(failed)` equals the submitted count and
the lists are exactly the per-descriptor partition; in cmip6_downloader.py
the lists account one-for-one for the prefix of completed futures the
`as_completed` loop consumed — everything submitted when the stop event
never fires, possibly fewer under cancellation — and even then no
descriptor appears in both lists. Descriptors beyond the cap end in neither
list. -/
theorem download_all_accounting
    (outcome : FileInfo → Except String DlRes) (maxD maxD2 : Option Nat)
    (files files2 : List FileInfo)
    (env : Env) (fm : FileManager) (retries : Nat) (fsOf : Nat → FS) (cnt : Cnt)
    (hshape : ∀ f ∈ files, (∃ p, outcome f = .ok ((some p, none) : DlRes)) ∨
      outcome f = .ok ((none, some f) : DlRes)) :
    (∃ dl fl, downloadAllD outcome maxD files = .ok (dl, fl) ∧
      dl.length + fl.length = effectiveTotal maxD files.length ∧
      dl = (files.take (effectiveTotal maxD files.length)).filterMap
        (fun f => pathOut (outcome f)) ∧
      fl = (files.take (effectiveTotal maxD files.length)).filter
        (fun f => isFailOut (outcome f))) ∧
    (∀ dl fl cnt',
      downloadAllC6 env fm retries maxD2 fsOf files2 cnt = ((dl, fl), cnt') →
      ∃ k, k ≤ effectiveTotal maxD2 files2.length ∧
        dl.length + fl.length = k ∧
        ((∀ n, env.stop n = false) → k = effectiveTotal maxD2 files2.length) ∧
        dl = ((runTasksC6 env fm retries fsOf
            (files2.take (effectiveTotal maxD2 files2.length)) 0 cnt).1.take k).filterMap
          pathOutPair ∧
        fl = ((runTasksC6 env fm retries fsOf
            (files2.take (effectiveTotal maxD2 files2.length)) 0 cnt).1.take k).filterMap
          failOutPair ∧
        ∀ r ∈ (runTasksC6 env fm retries fsOf
            (files2.take (effectiveTotal maxD2 files2.length)) 0 cnt).1,
          pathOutPair r = none ∨ failOutPair r = none) := by
  constructor
  · exact download_all_partition outcome maxD files hshape
  · intro dl fl cnt' hrun
    rw [downloadAllC6] at hrun
    by_cases h0 : effectiveTotal maxD2 files2.length = 0
    · simp only [h0] at hrun
      simp at hrun
      obtain ⟨⟨hd, hf⟩, -⟩ := hrun
      subst hd hf
      refine ⟨0, Nat.zero_le _, by simp, fun _ => h0.symm, by simp, by simp, ?_⟩
      intro r hr
      rw [h0] at hr
      simp [runTasksC6] at hr
    · simp only [h0, if_false] at hrun
      rcases hres : runTasksC6 env fm retries fsOf
          (files2.take (effectiveTotal maxD2 files2.length)) 0 cnt with ⟨results, cnt2⟩
      rw [hres] at hrun
      obtain ⟨k, cntk, hk, heq, hs⟩ := collectC6_spec env results [] [] cnt2
      rw [heq] at hrun
      simp at hrun
      obtain ⟨⟨hd, hf⟩, -⟩ := hrun
      have hTle : effectiveTotal maxD2 files2.length ≤ files2.length := by
        cases maxD2 with
        | none => exact Nat.le_refl _
        | some m =>
          simp only [effectiveTotal]
          split
          · exact Nat.le_refl _
          · exact Nat.min_le_left _ _
      have hrl : results.length = effectiveTotal maxD2 files2.length := by
        have hlen := runTasksC6_len env fm retries fsOf
          (files2.take (effectiveTotal maxD2 files2.length)) 0 cnt
        rw [hres] at hlen
        simp [List.length_take] at hlen
        omega
      have hshapes : ∀ r ∈ results, pairShape r := by
        intro r hr
        have hsh := runTasksC6_shape env fm retries fsOf
          (files2.take (effectiveTotal maxD2 files2.length)) 0 cnt r
        rw [hres] at hsh
        exact hsh hr
      refine ⟨k, by omega, ?_, ?_, ?_, ?_, ?_⟩
      · rw [← hd, ← hf]
        have hcount := pairShape_count (results.take k)
          (fun r hr => hshapes r (List.take_subset _ _ hr))
        rw [hcount]
        simp [List.length_take]
        omega
      · intro hsf
        rw [hs hsf]
        exact hrl
      · exact hd.symm
      · exact hf.symm
      · intro r hr
        rcases hshapes r hr with ⟨p, hp, hn⟩ | ⟨hn, -⟩
        · exact Or.inr hn
        · exact Or.inl hn

/-- Witness for the amended C1 theorem: a concrete two-descriptor batch,
uncapped, with every downloader.py task failing, and the cmip6 run under a
pre-set stop event. -/
theorem download_all_accounting_witness :
    (∀ f ∈ [fiA, fiB], (∃ p, outcomeErr f = .ok ((some p, none) : DlRes)) ∨
      outcomeErr f = .ok ((none, some f) : DlRes)) ∧
    ((∃ dl fl, downloadAllD outcomeErr none [fiA, fiB] = .ok (dl, fl) ∧
      dl.length + fl.length = effectiveTotal none ([fiA, fiB] : List FileInfo).length ∧
      dl = (([fiA, fiB] : List FileInfo).take
          (effectiveTotal none ([fiA, fiB] : List FileInfo).length)).filterMap
        (fun f => pathOut (outcomeErr f)) ∧
      fl = (([fiA, fiB] : List FileInfo).take
          (effectiveTotal none ([fiA, fiB] : List FileInfo).length)).filter
        (fun f => isFailOut (outcomeErr f))) ∧
    (∀ dl fl cnt',
      downloadAllC6 envStopped fmFlat 3 none (fun _ => fs0) [fiA, fiB] cnt0 =
        ((dl, fl), cnt') →
      ∃ k, k ≤ effectiveTotal none ([fiA, fiB] : List FileInfo).length ∧
        dl.length + fl.length = k ∧
        ((∀ n, envStopped.stop n = false) →
          k = effectiveTotal none ([fiA, fiB] : List FileInfo).length) ∧
        dl = ((runTasksC6 envStopped fmFlat 3 (fun _ => fs0)
            (([fiA, fiB] : List FileInfo).take
              (effectiveTotal none ([fiA, fiB] : List FileInfo).length)) 0 cnt0).1.take
            k).filterMap pathOutPair ∧
        fl = ((runTasksC6 envStopped fmFlat 3 (fun _ => fs0)
            (([fiA, fiB] : List FileInfo).take
              (effectiveTotal none ([fiA, fiB] : List FileInfo).length)) 0 cnt0).1.take
            k).filterMap failOutPair ∧
        ∀ r ∈ (runTasksC6 envStopped fmFlat 3 (fun _ => fs0)
            (([fiA, fiB] : List FileInfo).take
              (effectiveTotal none ([fiA, fiB] : List FileInfo).length)) 0 cnt0).1,
          pathOutPair r = none ∨ failOutPair r = none)) := by
  have hs : ∀ f ∈ [fiA, fiB], (∃ p, outcomeErr f = .ok ((some p, none) : DlRes)) ∨
      outcomeErr f = .ok ((none, some f) : DlRes) := by
    intro f hf
    rcases List.mem_cons.mp hf with rfl | hf2
    · exact Or.inr rfl
    · rcases List.mem_cons.mp hf2 with rfl | h3
      · exact Or.inr rfl
      · exact absurd h3 (List.not_mem_nil f)
  exact ⟨hs, download_all_accounting outcomeErr none none [fiA, fiB] [fiA, fiB]
    envStopped fmFlat 3 (fun _ => fs0) cnt0 hs⟩

end Gridflow
